import Mathlib

/-!
# tmpfs: directory cookies, node flags and inline helpers of `sys/fs/tmpfs/tmpfs.h`

A shallow embedding of the definitions of `tmpfs.h`.

* C integers are natural numbers.  `off_t` constants are non-negative, `uint32_t`
  values are naturals below `2 ^ 32`, and the bitwise operators `&`, `|` are
  `&&&`, `|||` on `Nat`.  The complement `~f` of an `int` flag is taken on the
  32-bit two's-complement bit pattern (`compl32`).
* A C pointer is an `Option`: `NULL` is `none`.
* A function whose assertion (`MPASS`) or pointer dereference can fail returns
  an `Option`, `none` standing for the failure.
* The functions that the header only declares (`tmpfs_alloc_node`,
  `tmpfs_free_node`, `tmpfs_dir_attach`, `tmpfs_dir_detach`, `tmpfs_dir_lookup`)
  are modelled from the specification; their doc comments say so.
-/

namespace Tmpfs

/-! ## Directory cookies (`tmpfs.h` lines 124-133) -/

def TMPFS_DIRCOOKIE_DOT : Nat := 0
def TMPFS_DIRCOOKIE_DOTDOT : Nat := 1
def TMPFS_DIRCOOKIE_EOF : Nat := 2
def TMPFS_DIRCOOKIE_MASK : Nat := 0x3fffffff
def TMPFS_DIRCOOKIE_MIN : Nat := 0x00000004
def TMPFS_DIRCOOKIE_DUP : Nat := 0x40000000
def TMPFS_DIRCOOKIE_DUPHEAD : Nat := 0x80000000
def TMPFS_DIRCOOKIE_DUP_MIN : Nat := TMPFS_DIRCOOKIE_DUP
def TMPFS_DIRCOOKIE_DUP_MAX : Nat := TMPFS_DIRCOOKIE_DUP ||| TMPFS_DIRCOOKIE_MASK

/-! ## Node flags (`tmpfs.h` lines 351-359) -/

def TMPFS_VNODE_ALLOCATING : Nat := 1
def TMPFS_VNODE_WANT : Nat := 2
def TMPFS_VNODE_DOOMED : Nat := 4
def TMPFS_VNODE_WRECLAIM : Nat := 8

def TMPFS_NODE_MODIFIED : Nat := 0x01
def TMPFS_NODE_CHANGED : Nat := 0x02

/-- The C operator `~` on the bit pattern of a 32-bit `int`: every one of the
32 bits is flipped. -/
def compl32 (x : Nat) : Nat := 0xffffffff ^^^ x

/-- The four `tn_vpstate` flags. -/
def vpstate_flags : List Nat :=
  [TMPFS_VNODE_ALLOCATING, TMPFS_VNODE_WANT, TMPFS_VNODE_DOOMED, TMPFS_VNODE_WRECLAIM]

/-- The two `tn_status` flags. -/
def status_flags : List Nat := [TMPFS_NODE_MODIFIED, TMPFS_NODE_CHANGED]

/-! ## Directory entries (`tmpfs.h` lines 57-93, 523-529) -/

/-- A `char` of a name buffer. -/
abbrev Byte := Fin 256

/-- The union `ud` of `struct tmpfs_dirent`: the name buffer of a regular or
dup entry (not required to be zero-terminated), or the list head of a duphead
entry (the address of the first chained entry, if any). -/
inductive tmpfs_dirent_ud where
  | td_name (buf : List Byte)
  | td_duphead (lh_first : Option Nat)
  deriving DecidableEq, Repr

/-- The fields of `struct tmpfs_dirent`.  The linkage union `uh` is not a
field here: which tree or list an entry is linked into is given by the
container holding it.  `td_node` is the address of the node (`none` for a
whiteout). -/
structure tmpfs_dirent where
  td_cookie : Nat
  td_hash : Nat
  td_namelen : Nat
  td_node : Option Nat
  ud : tmpfs_dirent_ud
  deriving DecidableEq, Repr

/-- Modelled from the spec: `bcmp` of libkern, which the header calls and does
not define.  The spec's lookup compares full names, so `bcmp b1 b2 len` is `0`
when the first `len` bytes of the two buffers agree and non-zero otherwise.
Reading past the end of a buffer has no result (`none`). -/
def bcmp : List Byte → List Byte → Nat → Option Nat
  | _, _, 0 => some 0
  | x :: xs, y :: ys, n + 1 =>
    match bcmp xs ys n with
    | none => none
    | some r => some (if x = y then r else 1)
  | _, _, _ + 1 => none

/-- The macro `TMPFS_DIRENT_MATCHES(de, name, len)`:
`de->td_namelen == len && bcmp(de->ud.td_name, name, de->td_namelen) == 0`.
The `&&` does not evaluate `bcmp` when the lengths differ.  Reading
`ud.td_name` of a duphead entry has no result. -/
def TMPFS_DIRENT_MATCHES (de : tmpfs_dirent) (name : List Byte) (len : Nat) : Option Bool :=
  if de.td_namelen = len then
    match de.ud with
    | .td_name buf => (bcmp buf name de.td_namelen).map (fun r => r == 0)
    | .td_duphead _ => none
  else some false

/-! ## Nodes, mounts and vnodes (`tmpfs.h` lines 167-323, 364-434) -/

structure timespec where
  tv_sec : Int
  tv_nsec : Int
  deriving DecidableEq, Repr

/-- The kernel's `enum vtype`, from which `tn_type` takes its values. -/
inductive vtype where
  | VNON | VREG | VDIR | VBLK | VCHR | VLNK | VSOCK | VFIFO | VBAD | VMARKER
  deriving DecidableEq, Repr

/-- The type-specific part `tn_spec` of a node.  Pointers are addresses. -/
inductive tmpfs_node_spec where
  | tn_rdev (dev : Nat)
  | tn_dir (tn_parent : Option Nat)
  | tn_link (tn_link_target : List Byte) (tn_link_smr : Nat)
  | tn_reg (tn_aobj : Option Nat) (tn_tmp : Option Nat) (tn_pages : Nat)
  deriving DecidableEq, Repr

/-- The fields of `struct tmpfs_node` (list linkage, the interlock and the
extended attribute list left out). -/
structure tmpfs_node where
  tn_id : Nat
  tn_type : vtype
  tn_attached : Bool
  tn_status : Nat
  tn_accessed : Nat
  tn_size : Int
  tn_uid : Nat
  tn_gid : Nat
  tn_mode : Nat
  tn_links : Int
  tn_flags : Nat
  tn_atime : timespec
  tn_mtime : timespec
  tn_ctime : timespec
  tn_birthtime : timespec
  tn_gen : Nat
  tn_vnode : Option Nat
  tn_vpstate : Nat
  tn_refcount : Nat
  tn_spec : tmpfs_node_spec
  deriving DecidableEq, Repr

/-- The fields of `struct tmpfs_mount` (the lock left out).  `tm_root` is the
address of the root node, `tm_ino_unr` the next inode number of the allocator,
`tm_nodes_used` the inode numbers of the nodes on the used list. -/
structure tmpfs_mount where
  tm_size_max : Int
  tm_pages_max : Nat
  tm_pages_used : Nat
  tm_root : Option Nat
  tm_nodes_max : Nat
  tm_ino_unr : Nat
  tm_nodes_inuse : Nat
  tm_ea_memory_inuse : Nat
  tm_ea_memory_max : Nat
  tm_refcount : Nat
  tm_maxfilesize : Nat
  tm_nodes_used : List Nat
  tm_ronly : Bool
  tm_nonc : Bool
  tm_nomtime : Bool
  tm_pgread : Bool
  deriving DecidableEq, Repr

/-- The one field of the kernel's `struct mount` that the header reads. -/
structure mount where
  mnt_data : Option tmpfs_mount
  deriving DecidableEq, Repr

/-- The two fields of the kernel's `struct vnode` that the header reads. -/
structure vnode where
  v_mount : Option mount
  v_data : Option tmpfs_node
  deriving DecidableEq, Repr

/-- What an inline function of the header does besides computing its result:
the calls it makes to functions defined elsewhere.  (The inline functions
modelled here contain no store.) -/
inductive effect where
  | tmpfs_itimes (vp : Option vnode) (acc : Option timespec) (mod : Option timespec)
  deriving DecidableEq, Repr

/-- The inline `tmpfs_update(vp)`: one call `tmpfs_itimes(vp, NULL, NULL)`. -/
def tmpfs_update (vp : Option vnode) : List effect :=
  [effect.tmpfs_itimes vp none none]

/-- The inline `VFS_TO_TMPFS(mp)`: `mp->mnt_data`, asserted non-NULL together
with `mp`. -/
def VFS_TO_TMPFS (mp : Option mount) : Option tmpfs_mount :=
  match mp with
  | none => none
  | some m => m.mnt_data

/-- The inline `VP_TO_TMPFS_NODE(vp)`: `vp->v_data`, asserted non-NULL together
with `vp`. -/
def VP_TO_TMPFS_NODE (vp : Option vnode) : Option tmpfs_node :=
  match vp with
  | none => none
  | some v => v.v_data

/-- The inline `tmpfs_use_nc(vp)`: `!(VFS_TO_TMPFS(vp->v_mount)->tm_nonc)`,
with the calls it makes (none). -/
def tmpfs_use_nc (vp : Option vnode) : Option (Bool × List effect) :=
  match vp with
  | none => none
  | some v =>
    match VFS_TO_TMPFS v.v_mount with
    | none => none
    | some tmp => some (!tmp.tm_nonc, [])

/-- The inline `tmpfs_update_getattr(vp)`: the calls it makes.
`tn_status` is promoted to `int` before the `&`, and `node->tn_accessed` as a
condition is `tn_accessed != 0`. -/
def tmpfs_update_getattr (vp : Option vnode) : Option (List effect) :=
  match VP_TO_TMPFS_NODE vp with
  | none => none
  | some node =>
    if (node.tn_status &&& (TMPFS_NODE_MODIFIED ||| TMPFS_NODE_CHANGED)) ≠ 0
        || node.tn_accessed ≠ 0 then
      some (tmpfs_update vp)
    else
      some []

/-! ## Node allocation and the node budget (spec §4.2, §4.3, §7)

`tmpfs_alloc_node` and `tmpfs_free_node` are declared by the header (lines
460-466) and defined in `tmpfs_subr.c`; the definitions below follow the spec. -/

/-- Modelled from the spec: the error taxonomy of §7 (the error values of
`tmpfs_subr.c`, which is not among the sources). -/
inductive tmpfs_error where
  | resource_exhaustion
  | logic_error
  | stale_reference
  deriving DecidableEq, Repr

/-- Modelled from the spec: `reserve_node_slot` of §4.3, part of the missing
`tmpfs_subr.c`.  Check-then-commit: the used count is incremented only after
confirming the new total does not exceed the maximum; the system-wide
available memory (`mem_avail`) is consulted as well. -/
def reserve_node_slot (mem_avail : Bool) (tm : tmpfs_mount) : Bool × tmpfs_mount :=
  if tm.tm_nodes_inuse + 1 ≤ tm.tm_nodes_max ∧ mem_avail = true then
    (true, { tm with tm_nodes_inuse := tm.tm_nodes_inuse + 1 })
  else
    (false, tm)

/-- Modelled from the spec: `release_node_slot` of §4.3, part of the missing
`tmpfs_subr.c`. -/
def release_node_slot (tm : tmpfs_mount) : tmpfs_mount :=
  { tm with tm_nodes_inuse := tm.tm_nodes_inuse - 1 }

/-- Modelled from the spec: the type-specific payload that §3 gives a new node
(part of the missing `tmpfs_alloc_node`).  A directory without a parent is the
root, whose parent is itself; nodes are named by their id. -/
def alloc_node_spec (type : vtype) (id : Nat) (parent : Option Nat)
    (target : List Byte) (rdev : Nat) : tmpfs_node_spec :=
  match type with
  | .VDIR => tmpfs_node_spec.tn_dir (some (parent.getD id))
  | .VLNK => tmpfs_node_spec.tn_link target 0
  | .VREG => tmpfs_node_spec.tn_reg none none 0
  | _ => tmpfs_node_spec.tn_rdev rdev

/-- Modelled from the spec: `tmpfs_alloc_node` (§4.2), whose definition in
`tmpfs_subr.c` is not among the sources.  It fails with resource exhaustion, committing
no change, when the node budget would be exceeded; otherwise it takes the next
id of the allocator, sets the four timestamps to `now` and the generation to
`gen`, and links the node into the used set.  Returns the result and the
mount afterwards. -/
def tmpfs_alloc_node (mem_avail : Bool) (now : timespec) (gen : Nat) (tm : tmpfs_mount)
    (type : vtype) (uid gid mode : Nat) (parent : Option Nat) (target : List Byte)
    (rdev : Nat) : Except tmpfs_error tmpfs_node × tmpfs_mount :=
  match reserve_node_slot mem_avail tm with
  | (false, tm1) => (Except.error tmpfs_error.resource_exhaustion, tm1)
  | (true, tm1) =>
    let id := tm1.tm_ino_unr
    let node : tmpfs_node :=
      { tn_id := id, tn_type := type, tn_attached := true, tn_status := 0,
        tn_accessed := 0, tn_size := 0, tn_uid := uid, tn_gid := gid, tn_mode := mode,
        tn_links := 0, tn_flags := 0, tn_atime := now, tn_mtime := now,
        tn_ctime := now, tn_birthtime := now, tn_gen := gen, tn_vnode := none,
        tn_vpstate := 0, tn_refcount := 1,
        tn_spec := alloc_node_spec type id parent target rdev }
    (Except.ok node,
      { tm1 with tm_ino_unr := id + 1, tm_nodes_used := id :: tm1.tm_nodes_used })

/-- Modelled from the spec: `tmpfs_free_node` (`release` of §4.2), whose
definition in `tmpfs_subr.c` is not among the sources.  The reference count is
decremented; when it reaches zero a node of the used set is unlinked and its
slot released. -/
def tmpfs_free_node (tm : tmpfs_mount) (node : tmpfs_node) : tmpfs_mount × tmpfs_node :=
  let node1 := { node with tn_refcount := node.tn_refcount - 1 }
  if node1.tn_refcount = 0 ∧ node.tn_id ∈ tm.tm_nodes_used then
    (release_node_slot { tm with tm_nodes_used := tm.tm_nodes_used.erase node.tn_id },
      { node1 with tn_attached := false })
  else
    (tm, node1)

/-- The mount states that can be reached: a fresh mount has no node in use,
and nodes are allocated and freed. -/
inductive mount_reachable : tmpfs_mount → Prop where
  | fresh (tm : tmpfs_mount) :
      tm.tm_nodes_inuse = 0 → tm.tm_nodes_used = [] → mount_reachable tm
  | alloc (tm : tmpfs_mount) (mem_avail : Bool) (now : timespec) (gen : Nat)
      (type : vtype) (uid gid mode : Nat) (parent : Option Nat) (target : List Byte)
      (rdev : Nat) :
      mount_reachable tm →
      mount_reachable
        (tmpfs_alloc_node mem_avail now gen tm type uid gid mode parent target rdev).2
  | free (tm : tmpfs_mount) (node : tmpfs_node) :
      mount_reachable tm → mount_reachable (tmpfs_free_node tm node).1

/-- A mount with room for `K` nodes and none in use. -/
def fresh_mount (K : Nat) : tmpfs_mount :=
  { tm_size_max := 0, tm_pages_max := 0, tm_pages_used := 0, tm_root := none,
    tm_nodes_max := K, tm_ino_unr := 2, tm_nodes_inuse := 0, tm_ea_memory_inuse := 0,
    tm_ea_memory_max := 0, tm_refcount := 1, tm_maxfilesize := 0, tm_nodes_used := [],
    tm_ronly := false, tm_nonc := false, tm_nomtime := false, tm_pgread := false }

/-! ## The directory entry tree (spec §4.1)

`tmpfs_dir_attach`, `tmpfs_dir_detach` and `tmpfs_dir_lookup` are declared by
the header (lines 479-484) and defined in `tmpfs_subr.c`; the definitions
below follow the spec.  An entry is named by its address. -/

/-- Modelled from the spec: a slot of the ordered structure of a directory
(the tree `tn_dirhead`, whose operations are in the missing `tmpfs_subr.c`),
keyed by hash: a plain entry, or a duplicate head with the chain of the
entries that share its hash (§3, §9). -/
inductive dir_slot where
  | plain (p : Nat) (de : tmpfs_dirent)
  | duphead (hash : Nat) (chain : List (Nat × tmpfs_dirent))
  deriving DecidableEq, Repr

/-- The key of a slot in the ordered structure. -/
def dir_slot.hash : dir_slot → Nat
  | .plain _ de => de.td_hash
  | .duphead h _ => h

/-- The entries a slot holds, with their addresses. -/
def dir_slot.entries : dir_slot → List (Nat × tmpfs_dirent)
  | .plain p de => [(p, de)]
  | .duphead _ chain => chain

/-- Modelled from the spec: the directory payload of a node (§3), maintained
by the missing `tmpfs_subr.c`: the ordered structure, the duplicate index
(cookie and address of each chained entry) and the counter that gives the next
unused duplicate cookie. -/
structure tmpfs_dir where
  tn_dirhead : List dir_slot
  tn_dupindex : List (Nat × Nat)
  dup_counter : Nat
  deriving DecidableEq, Repr

/-- All entries of a list of slots. -/
def slots_entries : List dir_slot → List (Nat × tmpfs_dirent)
  | [] => []
  | s :: l => s.entries ++ slots_entries l

/-- All entries of a directory. -/
def tmpfs_dir.entries (D : tmpfs_dir) : List (Nat × tmpfs_dirent) :=
  slots_entries D.tn_dirhead

/-- The name an entry stores: the first `td_namelen` bytes of its buffer. -/
def dirent_name (de : tmpfs_dirent) : Option (List Byte) :=
  match de.ud with
  | .td_name buf => if de.td_namelen ≤ buf.length then some (buf.take de.td_namelen) else none
  | .td_duphead _ => none

/-- Modelled from the spec: the probe of the ordered structure for a hash
(`tmpfs_dir_xlookup_hash` of the missing `tmpfs_subr.c`). -/
def tmpfs_dir_xlookup_hash (D : tmpfs_dir) (h : Nat) : Option dir_slot :=
  D.tn_dirhead.find? (fun s => s.hash == h)

/-- Modelled from the spec: insertion into the ordered structure, in hash
order (part of the missing `tmpfs_dir_attach`). -/
def insert_slot (s : dir_slot) : List dir_slot → List dir_slot
  | [] => [s]
  | t :: l => if s.hash ≤ t.hash then s :: t :: l else t :: insert_slot s l

/-- Modelled from the spec: the slot of hash `h` is given a new content (part
of the missing `tmpfs_dir_attach`). -/
def replace_slot (h : Nat) (s : dir_slot) (l : List dir_slot) : List dir_slot :=
  l.map (fun t => if t.hash = h then s else t)

/-- Modelled from the spec: `tmpfs_dir_attach` (insert of §4.1), whose
definition in `tmpfs_subr.c` is not among the sources.  With no entry of the same hash
the entry goes into the ordered structure, its cookie the hash value.  If the
hash is held by a plain entry, the slot becomes a duplicate head whose chain
holds the old and then the new entry, both with fresh cookies of the duplicate
range taken from the counter.  If the hash is held by a duplicate head the
entry is appended to its chain with a fresh cookie. -/
def tmpfs_dir_attach (D : tmpfs_dir) (p : Nat) (de : tmpfs_dirent) : tmpfs_dir :=
  match tmpfs_dir_xlookup_hash D de.td_hash with
  | none =>
    { D with
      tn_dirhead :=
        insert_slot (dir_slot.plain p { de with td_cookie := de.td_hash }) D.tn_dirhead }
  | some (.plain q old) =>
    let c1 := TMPFS_DIRCOOKIE_DUP ||| D.dup_counter
    let c2 := TMPFS_DIRCOOKIE_DUP ||| (D.dup_counter + 1)
    { tn_dirhead :=
        replace_slot de.td_hash
          (dir_slot.duphead de.td_hash
            [(q, { old with td_cookie := c1 }), (p, { de with td_cookie := c2 })])
          D.tn_dirhead
      tn_dupindex := D.tn_dupindex ++ [(c1, q), (c2, p)]
      dup_counter := D.dup_counter + 2 }
  | some (.duphead h chain) =>
    let c := TMPFS_DIRCOOKIE_DUP ||| D.dup_counter
    { tn_dirhead :=
        replace_slot de.td_hash
          (dir_slot.duphead h (chain ++ [(p, { de with td_cookie := c })]))
          D.tn_dirhead
      tn_dupindex := D.tn_dupindex ++ [(c, p)]
      dup_counter := D.dup_counter + 1 }

/-- Modelled from the spec: what the removal of the entry at address `p` leaves
of a slot (part of the missing `tmpfs_dir_detach`).  A plain entry leaves its
slot empty.  A chain that loses an entry keeps its head while two or more
entries remain; a sole survivor becomes a plain entry again, and an emptied
chain leaves nothing. -/
def detach_slot (p : Nat) : dir_slot → List dir_slot
  | .plain q de => if q = p then [] else [dir_slot.plain q de]
  | .duphead h chain =>
    if chain.any (fun e => e.1 == p) then
      match chain.filter (fun e => e.1 != p) with
      | [] => []
      | [e] => [dir_slot.plain e.1 e.2]
      | rest => [dir_slot.duphead h rest]
    else [dir_slot.duphead h chain]

/-- The removal of the entry at address `p` from a list of slots. -/
def detach_slots (p : Nat) : List dir_slot → List dir_slot
  | [] => []
  | s :: l => detach_slot p s ++ detach_slots p l

/-- Modelled from the spec: `tmpfs_dir_detach` (remove of §4.1), whose
definition in `tmpfs_subr.c` is not among the sources: the entry is detached from its
tree slot or chain, and leaves the duplicate index. -/
def tmpfs_dir_detach (D : tmpfs_dir) (p : Nat) : tmpfs_dir :=
  { D with
    tn_dirhead := detach_slots p D.tn_dirhead
    tn_dupindex := D.tn_dupindex.filter (fun ce => ce.2 != p) }

/-- Modelled from the spec: what a lookup finds in the slot of the name's hash
(part of the missing `tmpfs_dir_lookup`): a plain entry if it matches the full
name, and in a chain the first entry that does. -/
def slot_lookup (name : List Byte) : dir_slot → Option Nat
  | .plain p de =>
    if TMPFS_DIRENT_MATCHES de name name.length = some true then some p else none
  | .duphead _ chain =>
    (chain.find? (fun e => TMPFS_DIRENT_MATCHES e.2 name name.length == some true)).map
      Prod.fst

/-- Modelled from the spec: `tmpfs_dir_lookup` (lookup of §4.1), whose
definition in `tmpfs_subr.c` is not among the sources: the name is hashed (by `hash`,
the name hash of the missing `tmpfs_subr.c`), the ordered structure probed for
that hash, and the slot searched by full name.  Returns the address of the
entry found.  This is the spec's `lookup(parent, name)`: the node argument `f`
of the prototype, of which the spec says nothing, has no part in it. -/
def tmpfs_dir_lookup (hash : List Byte → Nat) (D : tmpfs_dir) (name : List Byte) :
    Option Nat :=
  match tmpfs_dir_xlookup_hash D (hash name) with
  | none => none
  | some s => slot_lookup name s

/-- The empty directory. -/
def tmpfs_dir_empty : tmpfs_dir :=
  { tn_dirhead := [], tn_dupindex := [], dup_counter := 0 }

/-- An entry with its cookie blanked: attachment of a colliding entry gives
chained entries new cookies and leaves every other field. -/
def strip_cookie (e : Nat × tmpfs_dirent) : Nat × tmpfs_dirent :=
  (e.1, { e.2 with td_cookie := 0 })

/-- Well-formed directory: the slots have distinct hashes and every entry sits
in the slot of its own hash. -/
def dir_wf (D : tmpfs_dir) : Prop :=
  (D.tn_dirhead.map dir_slot.hash).Nodup ∧
  ∀ s ∈ D.tn_dirhead, ∀ e ∈ s.entries, e.2.td_hash = s.hash

/-- A directory operation: the attachment of the entry `d` at address `q`, or
the detachment of the entry at address `q`. -/
inductive dir_op where
  | attach (q : Nat) (d : tmpfs_dirent)
  | detach (q : Nat)
  deriving DecidableEq, Repr

/-- The directory after an operation. -/
def dir_op.apply (D : tmpfs_dir) : dir_op → tmpfs_dir
  | .attach q d => tmpfs_dir_attach D q d
  | .detach q => tmpfs_dir_detach D q

/-- The directory after a sequence of operations. -/
def dir_run (D : tmpfs_dir) (ops : List dir_op) : tmpfs_dir :=
  ops.foldl dir_op.apply D

/-- The operation neither removes the entry at `p` nor binds the name `N`
again. -/
def op_keeps (N : List Byte) (p : Nat) : dir_op → Prop
  | .attach _ d => dirent_name d ≠ some N
  | .detach q => q ≠ p

/-- An entry for the name `N`: it stores the name `N` and, as its precomputed
hash, the hash of `N`. -/
def dirent_for (hash : List Byte → Nat) (N : List Byte) (de : tmpfs_dirent) : Prop :=
  dirent_name de = some N ∧ de.td_hash = hash N

/-- Every entry of the directory is an entry for the name it stores. -/
def dir_hashed (hash : List Byte → Nat) (D : tmpfs_dir) : Prop :=
  ∀ e ∈ D.entries, ∃ M, dirent_for hash M e.2

/-- The operation follows the protocol of the callers of the directory layer:
an entry is attached for a name whose lookup in the directory returns none. -/
def op_by_protocol (hash : List Byte → Nat) (D : tmpfs_dir) : dir_op → Prop
  | .attach _ d => ∃ M, dirent_for hash M d ∧ tmpfs_dir_lookup hash D M = none
  | .detach _ => True

/-- Every operation of the sequence follows the protocol in the directory it
is applied to. -/
def ops_by_protocol (hash : List Byte → Nat) : tmpfs_dir → List dir_op → Prop
  | _, [] => True
  | D, op :: ops => op_by_protocol hash D op ∧ ops_by_protocol hash (op.apply D) ops

/-- The directory is well formed, holds at address `p` the entry `de` (up to
its cookie), and no entry at another address bears the name `N`. -/
def dir_binds (N : List Byte) (p : Nat) (de : tmpfs_dirent) (D : tmpfs_dir) : Prop :=
  dir_wf D ∧
  (∃ d, (p, d) ∈ D.entries ∧ strip_cookie (p, d) = strip_cookie (p, de)) ∧
  ∀ e ∈ D.entries, dirent_name e.2 = some N → e.1 = p

/-! ## VM objects (`tmpfs.h` lines 48-49, 567-596) -/

/-- The fields of the kernel's `struct vm_object` that the header reads:
`flags` and the back-pointer `un_pager.swp.swp_priv` to the tmpfs node that
uses the object as backing store (`NULL` is `none`). -/
structure vm_object where
  flags : Nat
  swp_priv : Option tmpfs_node
  deriving DecidableEq, Repr

/-- A field of a VM object that a function reads. -/
inductive obj_read where
  | flags
  | swp_priv
  deriving DecidableEq, Repr

/-- The macro `OBJ_TMPFS`, defined as `OBJ_PAGERPRIV1`.  The value of
`OBJ_PAGERPRIV1` comes from the kernel's `vm_object.h` and is a parameter. -/
def OBJ_TMPFS (OBJ_PAGERPRIV1 : Nat) : Nat := OBJ_PAGERPRIV1

/-- The macro `OBJ_TMPFS_VREF`, defined as `OBJ_PAGERPRIV2`, a parameter
likewise. -/
def OBJ_TMPFS_VREF (OBJ_PAGERPRIV2 : Nat) : Nat := OBJ_PAGERPRIV2

/-- The inline `VM_TO_TMPFS_VP(obj)`: `NULL` when `(obj->flags & OBJ_TMPFS) == 0`,
else `node->tn_vnode` for `node = obj->un_pager.swp.swp_priv`.  Returns the
pointer (an address, `none` for `NULL`) and the fields of the object read, in
order; without a result when `obj` or the node dereferenced is `NULL`. -/
def VM_TO_TMPFS_VP (OBJ_PAGERPRIV1 : Nat) (obj : Option vm_object) :
    Option (Option Nat × List obj_read) :=
  match obj with
  | none => none
  | some o =>
    if (o.flags &&& OBJ_TMPFS OBJ_PAGERPRIV1) = 0 then
      some (none, [obj_read.flags])
    else
      match o.swp_priv with
      | none => none
      | some node => some (node.tn_vnode, [obj_read.flags, obj_read.swp_priv])

/-- The inline `VM_TO_TMPFS_MP(obj)`: `NULL` when `(obj->flags & OBJ_TMPFS) == 0`,
else `node->tn_reg.tn_tmp` for `node = obj->un_pager.swp.swp_priv`, asserted
(`MPASS`) to be of type `VREG`.  Returns the pointer and the fields of the
object read, in order; without a result when `obj` or the node is `NULL`, when
the assertion fails, or when the union `tn_spec` does not hold `tn_reg`. -/
def VM_TO_TMPFS_MP (OBJ_PAGERPRIV1 : Nat) (obj : Option vm_object) :
    Option (Option Nat × List obj_read) :=
  match obj with
  | none => none
  | some o =>
    if (o.flags &&& OBJ_TMPFS OBJ_PAGERPRIV1) = 0 then
      some (none, [obj_read.flags])
    else
      match o.swp_priv with
      | none => none
      | some node =>
        if node.tn_type = vtype.VREG then
          match node.tn_spec with
          | .tn_reg _ tn_tmp _ => some (tn_tmp, [obj_read.flags, obj_read.swp_priv])
          | _ => none
        else none

/-! ## Bit-level helper lemmas -/

theorem or_two_pow_and_two_pow (s a b : Nat) (h : a ≠ b) :
    (s ||| 2 ^ a) &&& 2 ^ b = s &&& 2 ^ b := by
  apply Nat.eq_of_testBit_eq
  intro i
  simp only [Nat.testBit_and, Nat.testBit_or, Nat.testBit_two_pow]
  by_cases hb : b = i
  · subst hb; simp [h]
  · simp [hb]

theorem and_compl_two_pow_and_two_pow (s a b w : Nat) (hb : b < w) (h : a ≠ b) :
    (s &&& ((2 ^ w - 1) ^^^ 2 ^ a)) &&& 2 ^ b = s &&& 2 ^ b := by
  apply Nat.eq_of_testBit_eq
  intro i
  simp only [Nat.testBit_and, Nat.testBit_xor, Nat.testBit_two_pow,
    Nat.testBit_two_pow_sub_one]
  by_cases hbi : b = i
  · subst hbi; simp [h, hb]
  · simp [hbi]

theorem and_two_pow_ne_zero_iff (c k : Nat) : c &&& 2 ^ k ≠ 0 ↔ c.testBit k = true := by
  rw [Nat.and_two_pow]
  cases c.testBit k <;> simp

theorem and_two_pow_eq_zero_iff (c k : Nat) : c &&& 2 ^ k = 0 ↔ c.testBit k = false := by
  rw [Nat.and_two_pow]
  cases c.testBit k <;> simp

theorem two_pow_or_eq_add (k c : Nat) (h : c < 2 ^ k) : 2 ^ k ||| c = 2 ^ k + c := by
  have := Nat.mul_add_lt_is_or h 1
  simpa using this.symm

theorem and_mask_eq_mod (h : Nat) : h &&& TMPFS_DIRCOOKIE_MASK = h % 2 ^ 30 := by
  have := Nat.and_pow_two_sub_one_eq_mod h 30
  simpa [TMPFS_DIRCOOKIE_MASK] using this

theorem dup_or_eq_add (c : Nat) (h : c ≤ TMPFS_DIRCOOKIE_MASK) :
    TMPFS_DIRCOOKIE_DUP ||| c = 2 ^ 30 + c := by
  have hc : c < 2 ^ 30 := by simp only [TMPFS_DIRCOOKIE_MASK] at h; omega
  have := two_pow_or_eq_add 30 c hc
  simpa [TMPFS_DIRCOOKIE_DUP] using this

theorem duphead_or_eq_add (c : Nat) (h : c ≤ TMPFS_DIRCOOKIE_MASK) :
    TMPFS_DIRCOOKIE_DUPHEAD ||| c = 2 ^ 31 + c := by
  have hc : c < 2 ^ 31 := by simp only [TMPFS_DIRCOOKIE_MASK] at h; omega
  have := two_pow_or_eq_add 31 c hc
  simpa [TMPFS_DIRCOOKIE_DUPHEAD] using this

theorem dup_max_eq : TMPFS_DIRCOOKIE_DUP_MAX = 0x7fffffff := by decide

theorem and_dup_eq_zero_iff (c : Nat) :
    c &&& TMPFS_DIRCOOKIE_DUP = 0 ↔ c / 2 ^ 30 % 2 = 0 := by
  have h := and_two_pow_eq_zero_iff c 30
  rw [Nat.testBit_to_div_mod] at h
  have e : TMPFS_DIRCOOKIE_DUP = 2 ^ 30 := by decide
  rw [e, h]
  simp

theorem and_duphead_eq_zero_iff (c : Nat) :
    c &&& TMPFS_DIRCOOKIE_DUPHEAD = 0 ↔ c / 2 ^ 31 % 2 = 0 := by
  have h := and_two_pow_eq_zero_iff c 31
  rw [Nat.testBit_to_div_mod] at h
  have e : TMPFS_DIRCOOKIE_DUPHEAD = 2 ^ 31 := by decide
  rw [e, h]
  simp

/-! ## Cookie scheme -/

/-- C1: the fixed cookies of '.', '..' and end-of-directory are pairwise
distinct and all below `TMPFS_DIRCOOKIE_MIN`; so a cookie at or above
`TMPFS_DIRCOOKIE_MIN`, and a cookie of the duplicate range
`[TMPFS_DIRCOOKIE_DUP_MIN, TMPFS_DIRCOOKIE_DUP_MAX]`, is none of the three. -/
theorem fixed_cookies_cannot_collide :
    (TMPFS_DIRCOOKIE_DOT ≠ TMPFS_DIRCOOKIE_DOTDOT ∧
      TMPFS_DIRCOOKIE_DOT ≠ TMPFS_DIRCOOKIE_EOF ∧
      TMPFS_DIRCOOKIE_DOTDOT ≠ TMPFS_DIRCOOKIE_EOF) ∧
    (TMPFS_DIRCOOKIE_DOT < TMPFS_DIRCOOKIE_MIN ∧
      TMPFS_DIRCOOKIE_DOTDOT < TMPFS_DIRCOOKIE_MIN ∧
      TMPFS_DIRCOOKIE_EOF < TMPFS_DIRCOOKIE_MIN) ∧
    (∀ c : Nat, TMPFS_DIRCOOKIE_MIN ≤ c →
      c ≠ TMPFS_DIRCOOKIE_DOT ∧ c ≠ TMPFS_DIRCOOKIE_DOTDOT ∧ c ≠ TMPFS_DIRCOOKIE_EOF) ∧
    (∀ c : Nat, TMPFS_DIRCOOKIE_DUP_MIN ≤ c → c ≤ TMPFS_DIRCOOKIE_DUP_MAX →
      c ≠ TMPFS_DIRCOOKIE_DOT ∧ c ≠ TMPFS_DIRCOOKIE_DOTDOT ∧ c ≠ TMPFS_DIRCOOKIE_EOF) := by
  refine ⟨by decide, by decide, ?_, ?_⟩
  · intro c hc
    simp only [TMPFS_DIRCOOKIE_MIN, TMPFS_DIRCOOKIE_DOT, TMPFS_DIRCOOKIE_DOTDOT,
      TMPFS_DIRCOOKIE_EOF] at *
    omega
  · intro c hc _
    simp only [TMPFS_DIRCOOKIE_DUP_MIN, TMPFS_DIRCOOKIE_DUP, TMPFS_DIRCOOKIE_DOT,
      TMPFS_DIRCOOKIE_DOTDOT, TMPFS_DIRCOOKIE_EOF] at *
    omega

/-- C2: the bits of `TMPFS_DIRCOOKIE_MASK`, `TMPFS_DIRCOOKIE_DUP` and
`TMPFS_DIRCOOKIE_DUPHEAD` are pairwise disjoint, and a masked hash
`h & TMPFS_DIRCOOKIE_MASK` (for every `h`, so for every 32-bit one) lies in
`0..0x3fffffff` and has neither the DUP nor the DUPHEAD bit. -/
theorem variant_tags_outside_plain_range :
    TMPFS_DIRCOOKIE_MASK = 0x3fffffff ∧ TMPFS_DIRCOOKIE_DUP = 0x40000000 ∧
    TMPFS_DIRCOOKIE_DUPHEAD = 0x80000000 ∧
    TMPFS_DIRCOOKIE_MASK &&& TMPFS_DIRCOOKIE_DUP = 0 ∧
    TMPFS_DIRCOOKIE_MASK &&& TMPFS_DIRCOOKIE_DUPHEAD = 0 ∧
    TMPFS_DIRCOOKIE_DUP &&& TMPFS_DIRCOOKIE_DUPHEAD = 0 ∧
    ∀ h : Nat,
      h &&& TMPFS_DIRCOOKIE_MASK ≤ 0x3fffffff ∧
      (h &&& TMPFS_DIRCOOKIE_MASK) &&& TMPFS_DIRCOOKIE_DUP = 0 ∧
      (h &&& TMPFS_DIRCOOKIE_MASK) &&& TMPFS_DIRCOOKIE_DUPHEAD = 0 := by
  refine ⟨rfl, rfl, rfl, by decide, by decide, by decide, ?_⟩
  intro h
  rw [and_dup_eq_zero_iff, and_duphead_eq_zero_iff, and_mask_eq_mod]
  omega

/-- C3: cookies are limited to 31 bits: the fixed cookies, every plain cookie
`h & TMPFS_DIRCOOKIE_MASK`, every duplicate cookie `TMPFS_DIRCOOKIE_DUP | c`
with `c <= TMPFS_DIRCOOKIE_MASK` and every value of the duplicate range are
below `2 ^ 31`, and `TMPFS_DIRCOOKIE_DUP_MAX` is `0x7fffffff`. -/
theorem cookies_limited_to_31_bits :
    (TMPFS_DIRCOOKIE_DOT < 2 ^ 31 ∧ TMPFS_DIRCOOKIE_DOTDOT < 2 ^ 31 ∧
      TMPFS_DIRCOOKIE_EOF < 2 ^ 31) ∧
    (∀ h : Nat, h &&& TMPFS_DIRCOOKIE_MASK < 2 ^ 31) ∧
    (∀ c : Nat, c ≤ TMPFS_DIRCOOKIE_MASK → TMPFS_DIRCOOKIE_DUP ||| c < 2 ^ 31) ∧
    (∀ c : Nat, TMPFS_DIRCOOKIE_DUP_MIN ≤ c → c ≤ TMPFS_DIRCOOKIE_DUP_MAX → c < 2 ^ 31) ∧
    TMPFS_DIRCOOKIE_DUP_MAX = 0x7fffffff := by
  refine ⟨by decide, ?_, ?_, ?_, dup_max_eq⟩
  · intro h
    rw [and_mask_eq_mod]
    omega
  · intro c hc
    rw [dup_or_eq_add c hc]
    simp only [TMPFS_DIRCOOKIE_MASK] at hc
    omega
  · intro c _ hc
    rw [dup_max_eq] at hc
    omega

/-- C8: the plain cookies, the duplicate cookies and the duphead cookies are
pairwise disjoint sets; a 32-bit cookie (`td_cookie` is a `uint32_t`) is in
the duplicate range iff its DUP bit is set and its DUPHEAD bit is clear; and
`TMPFS_DIRCOOKIE_DUP | c` for `c <= TMPFS_DIRCOOKIE_MASK` is in the duplicate
range and gives `c` back under the mask. -/
theorem cookie_flag_determines_entry_type :
    Disjoint {c : Nat | c ≤ TMPFS_DIRCOOKIE_MASK}
      {c : Nat | TMPFS_DIRCOOKIE_DUP_MIN ≤ c ∧ c ≤ TMPFS_DIRCOOKIE_DUP_MAX} ∧
    Disjoint {c : Nat | c ≤ TMPFS_DIRCOOKIE_MASK}
      {c : Nat | ∃ h, h ≤ TMPFS_DIRCOOKIE_MASK ∧ c = TMPFS_DIRCOOKIE_DUPHEAD ||| h} ∧
    Disjoint {c : Nat | TMPFS_DIRCOOKIE_DUP_MIN ≤ c ∧ c ≤ TMPFS_DIRCOOKIE_DUP_MAX}
      {c : Nat | ∃ h, h ≤ TMPFS_DIRCOOKIE_MASK ∧ c = TMPFS_DIRCOOKIE_DUPHEAD ||| h} ∧
    (∀ c : Nat, c < 2 ^ 32 →
      ((TMPFS_DIRCOOKIE_DUP_MIN ≤ c ∧ c ≤ TMPFS_DIRCOOKIE_DUP_MAX) ↔
        (c &&& TMPFS_DIRCOOKIE_DUP ≠ 0 ∧ c &&& TMPFS_DIRCOOKIE_DUPHEAD = 0))) ∧
    (∀ c : Nat, c ≤ TMPFS_DIRCOOKIE_MASK →
      (TMPFS_DIRCOOKIE_DUP_MIN ≤ (TMPFS_DIRCOOKIE_DUP ||| c) ∧
        (TMPFS_DIRCOOKIE_DUP ||| c) ≤ TMPFS_DIRCOOKIE_DUP_MAX) ∧
      (TMPFS_DIRCOOKIE_DUP ||| c) &&& TMPFS_DIRCOOKIE_MASK = c) := by
  refine ⟨?_, ?_, ?_, ?_, ?_⟩
  · rw [Set.disjoint_left]
    rintro c hc ⟨h1, _⟩
    simp only [Set.mem_setOf_eq, TMPFS_DIRCOOKIE_MASK] at hc
    simp only [TMPFS_DIRCOOKIE_DUP_MIN, TMPFS_DIRCOOKIE_DUP] at h1
    omega
  · rw [Set.disjoint_left]
    rintro c hc ⟨h, hh, rfl⟩
    rw [Set.mem_setOf_eq, duphead_or_eq_add h hh] at hc
    simp only [TMPFS_DIRCOOKIE_MASK] at hc
    omega
  · rw [Set.disjoint_left]
    rintro c ⟨_, h2⟩ ⟨h, hh, rfl⟩
    rw [duphead_or_eq_add h hh, dup_max_eq] at h2
    omega
  · intro c hc
    rw [Ne, and_dup_eq_zero_iff, and_duphead_eq_zero_iff, dup_max_eq]
    simp only [TMPFS_DIRCOOKIE_DUP_MIN, TMPFS_DIRCOOKIE_DUP]
    omega
  · intro c hc
    rw [dup_or_eq_add c hc, and_mask_eq_mod, dup_max_eq]
    simp only [TMPFS_DIRCOOKIE_DUP_MIN, TMPFS_DIRCOOKIE_DUP]
    simp only [TMPFS_DIRCOOKIE_MASK] at hc
    omega

/-! ## Node flags -/

theorem vpstate_flag_is_two_pow (f : Nat) (hf : f ∈ vpstate_flags) :
    ∃ k, k < 4 ∧ f = 2 ^ k := by
  simp only [vpstate_flags, List.mem_cons, List.mem_singleton, List.mem_nil_iff,
    or_false] at hf
  rcases hf with rfl | rfl | rfl | rfl
  · exact ⟨0, by decide, rfl⟩
  · exact ⟨1, by decide, rfl⟩
  · exact ⟨2, by decide, rfl⟩
  · exact ⟨3, by decide, rfl⟩

theorem status_flag_is_two_pow (f : Nat) (hf : f ∈ status_flags) :
    ∃ k, k < 2 ∧ f = 2 ^ k := by
  simp only [status_flags, List.mem_cons, List.mem_singleton, List.mem_nil_iff,
    or_false] at hf
  rcases hf with rfl | rfl
  · exact ⟨0, by decide, rfl⟩
  · exact ⟨1, by decide, rfl⟩

theorem two_pow_and_two_pow (a b : Nat) (h : a ≠ b) : 2 ^ a &&& 2 ^ b = 0 := by
  rw [and_two_pow_eq_zero_iff, Nat.testBit_two_pow]
  simp [h]

theorem compl32_two_pow (a : Nat) : compl32 (2 ^ a) = (2 ^ 32 - 1) ^^^ 2 ^ a := rfl

/-- Setting or clearing the single-bit flag `2 ^ a` in a word leaves the test
of another single-bit flag `2 ^ b` (within the low 32 bits) unchanged. -/
theorem flag_frame (s a b : Nat) (hb : b < 32) (h : a ≠ b) :
    (s ||| 2 ^ a) &&& 2 ^ b = s &&& 2 ^ b ∧
    (s &&& compl32 (2 ^ a)) &&& 2 ^ b = s &&& 2 ^ b :=
  ⟨or_two_pow_and_two_pow s a b h, by
    rw [compl32_two_pow]; exact and_compl_two_pow_and_two_pow s a b 32 hb h⟩

/-- C9: the `tn_vpstate` flags are non-zero, single-bit and pairwise disjoint,
so setting (`s | f`) or clearing (`s & ~f`) one flag leaves the test `s & g`
of every other flag unchanged; `ALLOCATING | WANT` differs from `ALLOCATING`,
clearing `WANT` from it gives `ALLOCATING`, and the idle state `0` has no
flag set.  The same holds for the two `tn_status` flags. -/
theorem node_flags_independent :
    (∀ f ∈ vpstate_flags, f ≠ 0 ∧ ∃ k, f = 2 ^ k) ∧
    (∀ f ∈ vpstate_flags, ∀ g ∈ vpstate_flags, f ≠ g → f &&& g = 0) ∧
    (∀ s : Nat, ∀ f ∈ vpstate_flags, ∀ g ∈ vpstate_flags, f ≠ g →
      (s ||| f) &&& g = s &&& g ∧ (s &&& compl32 f) &&& g = s &&& g) ∧
    (TMPFS_VNODE_ALLOCATING ||| TMPFS_VNODE_WANT ≠ TMPFS_VNODE_ALLOCATING ∧
      (TMPFS_VNODE_ALLOCATING ||| TMPFS_VNODE_WANT) &&& compl32 TMPFS_VNODE_WANT
        = TMPFS_VNODE_ALLOCATING ∧
      ∀ f ∈ vpstate_flags, 0 &&& f = 0) ∧
    (∀ f ∈ status_flags, f ≠ 0 ∧ ∃ k, f = 2 ^ k) ∧
    (∀ f ∈ status_flags, ∀ g ∈ status_flags, f ≠ g → f &&& g = 0) ∧
    (∀ s : Nat, ∀ f ∈ status_flags, ∀ g ∈ status_flags, f ≠ g →
      (s ||| f) &&& g = s &&& g ∧ (s &&& compl32 f) &&& g = s &&& g) ∧
    (∀ f ∈ status_flags, 0 &&& f = 0) := by
  refine ⟨?_, ?_, ?_, ⟨by decide, by decide, ?_⟩, ?_, ?_, ?_, ?_⟩
  · intro f hf
    obtain ⟨k, _, rfl⟩ := vpstate_flag_is_two_pow f hf
    exact ⟨by positivity, k, rfl⟩
  · intro f hf g hg hne
    obtain ⟨a, _, rfl⟩ := vpstate_flag_is_two_pow f hf
    obtain ⟨b, _, rfl⟩ := vpstate_flag_is_two_pow g hg
    exact two_pow_and_two_pow a b (fun e => hne (by rw [e]))
  · intro s f hf g hg hne
    obtain ⟨a, _, rfl⟩ := vpstate_flag_is_two_pow f hf
    obtain ⟨b, hb, rfl⟩ := vpstate_flag_is_two_pow g hg
    exact flag_frame s a b (by omega) (fun e => hne (by rw [e]))
  · intro f _
    exact Nat.zero_and f
  · intro f hf
    obtain ⟨k, _, rfl⟩ := status_flag_is_two_pow f hf
    exact ⟨by positivity, k, rfl⟩
  · intro f hf g hg hne
    obtain ⟨a, _, rfl⟩ := status_flag_is_two_pow f hf
    obtain ⟨b, _, rfl⟩ := status_flag_is_two_pow g hg
    exact two_pow_and_two_pow a b (fun e => hne (by rw [e]))
  · intro s f hf g hg hne
    obtain ⟨a, _, rfl⟩ := status_flag_is_two_pow f hf
    obtain ⟨b, hb, rfl⟩ := status_flag_is_two_pow g hg
    exact flag_frame s a b (by omega) (fun e => hne (by rw [e]))
  · intro f _
    exact Nat.zero_and f

/-! ## Name matching -/

theorem bcmp_eq (n : Nat) : ∀ (b1 b2 : List Byte), n ≤ b1.length → n ≤ b2.length →
    bcmp b1 b2 n = some (if b1.take n = b2.take n then 0 else 1) := by
  induction n with
  | zero => intro b1 b2 _ _; simp [bcmp]
  | succ n ih =>
    intro b1 b2 h1 h2
    cases b1 with
    | nil => simp at h1
    | cons x xs =>
      cases b2 with
      | nil => simp at h2
      | cons y ys =>
        have h1' : n ≤ xs.length := by simpa using h1
        have h2' : n ≤ ys.length := by simpa using h2
        simp only [bcmp, ih xs ys h1' h2', List.take_succ_cons, List.cons.injEq]
        by_cases hxy : x = y
        · simp [hxy]
        · simp [hxy]

theorem dirent_matches_eq (de : tmpfs_dirent) (buf name : List Byte) (len : Nat)
    (hud : de.ud = tmpfs_dirent_ud.td_name buf) (hbuf : de.td_namelen ≤ buf.length)
    (hname : len ≤ name.length) :
    TMPFS_DIRENT_MATCHES de name len =
      some (decide (de.td_namelen = len ∧ buf.take len = name.take len)) := by
  unfold TMPFS_DIRENT_MATCHES
  by_cases hl : de.td_namelen = len
  · rw [if_pos hl, hud]
    simp only
    rw [bcmp_eq de.td_namelen buf name hbuf (by omega), hl]
    by_cases he : List.take len buf = List.take len name
    · simp [he]
    · simp [he]
  · rw [if_neg hl]
    simp [hl]

/-- C4: `TMPFS_DIRENT_MATCHES(de, name, len)` compares full names.  For a
non-duphead entry `de` (its `ud` is a name buffer holding at least `td_namelen`
bytes) and a name of `len` bytes, the macro has a result, which is true iff
`de->td_namelen == len` and the first `len` bytes of the stored name are the
bytes of the name.  The result does not depend on `td_cookie`, `td_hash` or
`td_node`; an entry of equal hash and a different name matches neither way;
every entry matches its own name; and an entry with `td_namelen == 0` matches
exactly the names of length 0. -/
theorem dirent_matches_compares_full_names
    (de : tmpfs_dirent) (buf name : List Byte) (len : Nat)
    (hud : de.ud = tmpfs_dirent_ud.td_name buf) (hbuf : de.td_namelen ≤ buf.length)
    (hname : len ≤ name.length) :
    (TMPFS_DIRENT_MATCHES de name len = some true ↔
      (de.td_namelen = len ∧ buf.take len = name.take len)) ∧
    (TMPFS_DIRENT_MATCHES de name len = some false ↔
      ¬ (de.td_namelen = len ∧ buf.take len = name.take len)) ∧
    (∀ (c h : Nat) (nd : Option Nat),
      TMPFS_DIRENT_MATCHES { de with td_cookie := c, td_hash := h, td_node := nd } name len
        = TMPFS_DIRENT_MATCHES de name len) ∧
    (∀ (de2 : tmpfs_dirent) (buf2 : List Byte),
      de2.ud = tmpfs_dirent_ud.td_name buf2 → de2.td_namelen ≤ buf2.length →
      de2.td_hash = de.td_hash →
      buf2.take de2.td_namelen ≠ buf.take de.td_namelen →
      TMPFS_DIRENT_MATCHES de buf2 de2.td_namelen = some false ∧
      TMPFS_DIRENT_MATCHES de2 buf de.td_namelen = some false) ∧
    TMPFS_DIRENT_MATCHES de buf de.td_namelen = some true ∧
    (de.td_namelen = 0 → (TMPFS_DIRENT_MATCHES de name len = some true ↔ len = 0)) := by
  have hm := dirent_matches_eq de buf name len hud hbuf hname
  refine ⟨?_, ?_, ?_, ?_, ?_, ?_⟩
  · rw [hm]; simp
  · rw [hm]; simp
  · intro c h nd
    rfl
  · intro de2 buf2 hud2 hbuf2 _ hne
    rw [dirent_matches_eq de buf buf2 de2.td_namelen hud hbuf hbuf2,
      dirent_matches_eq de2 buf2 buf de.td_namelen hud2 hbuf2 hbuf]
    constructor
    · simp only [Option.some.injEq, decide_eq_false_iff_not, not_and]
      intro e h
      apply hne
      rw [e]
      exact h.symm
    · simp only [Option.some.injEq, decide_eq_false_iff_not, not_and]
      intro e h
      apply hne
      rw [e]
      exact h
  · rw [dirent_matches_eq de buf buf de.td_namelen hud hbuf hbuf]
    simp
  · intro h0
    rw [hm, h0]
    simp only [Option.some.injEq, decide_eq_true_eq]
    constructor
    · intro h; exact h.1.symm
    · intro h; subst h; simp

/-- C4 at a concrete input: the entry named `ab` (with a longer backing
buffer) against the name `ab`. -/
theorem dirent_matches_compares_full_names_witness :
    TMPFS_DIRENT_MATCHES
        { td_cookie := 7, td_hash := 7, td_namelen := 2, td_node := some 1,
          ud := tmpfs_dirent_ud.td_name [97, 98, 99] } [97, 98] 2 = some true ∧
    TMPFS_DIRENT_MATCHES
        { td_cookie := 7, td_hash := 7, td_namelen := 2, td_node := some 1,
          ud := tmpfs_dirent_ud.td_name [97, 98, 99] } [97, 98, 99] 3 = some false :=
  ⟨(dirent_matches_compares_full_names
      { td_cookie := 7, td_hash := 7, td_namelen := 2, td_node := some 1,
        ud := tmpfs_dirent_ud.td_name [97, 98, 99] } [97, 98, 99] [97, 98] 2
      rfl (by decide) (by decide)).1.2 ⟨rfl, by decide⟩,
   by decide⟩

/-! ## Inline helpers -/

theorem status_mask_test (s : Nat) :
    s &&& (TMPFS_NODE_MODIFIED ||| TMPFS_NODE_CHANGED) ≠ 0 ↔
      (s &&& TMPFS_NODE_MODIFIED ≠ 0 ∨ s &&& TMPFS_NODE_CHANGED ≠ 0) := by
  have h3 : s &&& (TMPFS_NODE_MODIFIED ||| TMPFS_NODE_CHANGED) = s % 2 ^ 2 :=
    Nat.and_pow_two_sub_one_eq_mod s 2
  have h1 : s &&& TMPFS_NODE_MODIFIED = s % 2 ^ 1 :=
    Nat.and_pow_two_sub_one_eq_mod s 1
  have h2 : s &&& TMPFS_NODE_CHANGED = 0 ↔ s / 2 ^ 1 % 2 = 0 := by
    have h := and_two_pow_eq_zero_iff s 1
    rw [Nat.testBit_to_div_mod] at h
    have e : TMPFS_NODE_CHANGED = 2 ^ 1 := by decide
    rw [e, h]
    simp
  rw [h3, h1, Ne, Ne, Ne, h2]
  omega

/-- C7: `tmpfs_update_getattr(vp)` calls the timestamp refresh
`tmpfs_itimes(vp, NULL, NULL)` exactly once iff `tn_status` has
`TMPFS_NODE_MODIFIED` or `TMPFS_NODE_CHANGED` set or `tn_accessed` is non-zero,
and makes no call otherwise; with `(tn_status & 0x03) == 0` and
`tn_accessed == 0` it does nothing, whatever the other status bits. -/
theorem update_getattr_refreshes_iff_pending
    (v : vnode) (node : tmpfs_node) (hv : v.v_data = some node) :
    (tmpfs_update_getattr (some v) = some [effect.tmpfs_itimes (some v) none none] ↔
      (node.tn_status &&& TMPFS_NODE_MODIFIED ≠ 0 ∨
        node.tn_status &&& TMPFS_NODE_CHANGED ≠ 0 ∨ node.tn_accessed ≠ 0)) ∧
    (tmpfs_update_getattr (some v) = some [] ↔
      ¬ (node.tn_status &&& TMPFS_NODE_MODIFIED ≠ 0 ∨
        node.tn_status &&& TMPFS_NODE_CHANGED ≠ 0 ∨ node.tn_accessed ≠ 0)) ∧
    (node.tn_status &&& 0x03 = 0 → node.tn_accessed = 0 →
      tmpfs_update_getattr (some v) = some []) := by
  have hst := status_mask_test node.tn_status
  have e3 : (TMPFS_NODE_MODIFIED ||| TMPFS_NODE_CHANGED) = 0x03 := by decide
  by_cases hc : (node.tn_status &&& (TMPFS_NODE_MODIFIED ||| TMPFS_NODE_CHANGED)) ≠ 0
      ∨ node.tn_accessed ≠ 0
  · have hr : tmpfs_update_getattr (some v)
        = some [effect.tmpfs_itimes (some v) none none] := by
      simp only [tmpfs_update_getattr, VP_TO_TMPFS_NODE, hv, tmpfs_update]
      rw [if_pos]
      simpa using hc
    have hc' : node.tn_status &&& TMPFS_NODE_MODIFIED ≠ 0 ∨
        node.tn_status &&& TMPFS_NODE_CHANGED ≠ 0 ∨ node.tn_accessed ≠ 0 := by
      rcases hc with h | h
      · rcases hst.1 h with h | h
        · exact Or.inl h
        · exact Or.inr (Or.inl h)
      · exact Or.inr (Or.inr h)
    refine ⟨⟨fun _ => hc', fun _ => hr⟩, ?_, ?_⟩
    · rw [hr]
      simp only [Option.some.injEq, List.cons_ne_nil, false_iff, not_not, reduceCtorEq]
      exact hc'
    · intro h3 ha
      exfalso
      rw [e3] at hc
      rcases hc with h | h
      · exact h h3
      · exact h ha
  · have hr : tmpfs_update_getattr (some v) = some [] := by
      simp only [tmpfs_update_getattr, VP_TO_TMPFS_NODE, hv]
      rw [if_neg]
      simpa using hc
    have hc' : ¬ (node.tn_status &&& TMPFS_NODE_MODIFIED ≠ 0 ∨
        node.tn_status &&& TMPFS_NODE_CHANGED ≠ 0 ∨ node.tn_accessed ≠ 0) := by
      intro h
      apply hc
      rcases h with h | h | h
      · exact Or.inl (hst.2 (Or.inl h))
      · exact Or.inl (hst.2 (Or.inr h))
      · exact Or.inr h
    refine ⟨?_, ⟨fun _ => hc', fun _ => hr⟩, fun _ _ => hr⟩
    rw [hr]
    simp only [Option.some.injEq, List.nil_eq, List.cons_ne_nil, false_iff, reduceCtorEq]
    exact hc'

/-- C7 at a concrete input: a node with status `0x06` (CHANGED and one other
bit) gets one refresh call. -/
theorem update_getattr_refreshes_iff_pending_witness :
    tmpfs_update_getattr (some
      { v_mount := none,
        v_data := some
          { tn_id := 2, tn_type := vtype.VREG, tn_attached := true, tn_status := 6,
            tn_accessed := 0, tn_size := 0, tn_uid := 0, tn_gid := 0, tn_mode := 420,
            tn_links := 1, tn_flags := 0, tn_atime := ⟨0, 0⟩, tn_mtime := ⟨0, 0⟩,
            tn_ctime := ⟨0, 0⟩, tn_birthtime := ⟨0, 0⟩, tn_gen := 1, tn_vnode := none,
            tn_vpstate := 0, tn_refcount := 1,
            tn_spec := tmpfs_node_spec.tn_reg none none 0 } })
      = some [effect.tmpfs_itimes (some
      { v_mount := none,
        v_data := some
          { tn_id := 2, tn_type := vtype.VREG, tn_attached := true, tn_status := 6,
            tn_accessed := 0, tn_size := 0, tn_uid := 0, tn_gid := 0, tn_mode := 420,
            tn_links := 1, tn_flags := 0, tn_atime := ⟨0, 0⟩, tn_mtime := ⟨0, 0⟩,
            tn_ctime := ⟨0, 0⟩, tn_birthtime := ⟨0, 0⟩, tn_gen := 1, tn_vnode := none,
            tn_vpstate := 0, tn_refcount := 1,
            tn_spec := tmpfs_node_spec.tn_reg none none 0 } }) none none] :=
  (update_getattr_refreshes_iff_pending _ _ rfl).1.2 (Or.inr (Or.inl (by decide)))

/-- C10: `tmpfs_use_nc(vp)` returns true iff `tm_nonc` of the mount of `vp` is
false; it makes no call and no store, and two vnodes whose mounts agree on
`tm_nonc` get the same result, whatever the other fields of the mount (and of
the vnode) are. -/
theorem use_nc_iff_not_nonc
    (v : vnode) (mp : mount) (tmp : tmpfs_mount)
    (hm : v.v_mount = some mp) (hd : mp.mnt_data = some tmp) :
    tmpfs_use_nc (some v) = some (!tmp.tm_nonc, []) ∧
    (tmpfs_use_nc (some v) = some (true, []) ↔ tmp.tm_nonc = false) ∧
    (tmpfs_use_nc (some v) = some (false, []) ↔ tmp.tm_nonc = true) ∧
    (∀ (v2 : vnode) (mp2 : mount) (tmp2 : tmpfs_mount),
      v2.v_mount = some mp2 → mp2.mnt_data = some tmp2 → tmp2.tm_nonc = tmp.tm_nonc →
      tmpfs_use_nc (some v2) = tmpfs_use_nc (some v)) := by
  have hr : tmpfs_use_nc (some v) = some (!tmp.tm_nonc, []) := by
    simp [tmpfs_use_nc, VFS_TO_TMPFS, hm, hd]
  refine ⟨hr, ?_, ?_, ?_⟩
  · rw [hr]; cases tmp.tm_nonc <;> simp
  · rw [hr]; cases tmp.tm_nonc <;> simp
  · intro v2 mp2 tmp2 hm2 hd2 he
    rw [hr]
    simp [tmpfs_use_nc, VFS_TO_TMPFS, hm2, hd2, he]

/-- C10 at a concrete input: a read-only mount with the name cache enabled. -/
theorem use_nc_iff_not_nonc_witness :
    tmpfs_use_nc (some
      { v_data := none,
        v_mount := some ⟨some
          { tm_size_max := 0, tm_pages_max := 8, tm_pages_used := 0, tm_root := none,
            tm_nodes_max := 4, tm_ino_unr := 2, tm_nodes_inuse := 0,
            tm_ea_memory_inuse := 0, tm_ea_memory_max := 0, tm_refcount := 1,
            tm_maxfilesize := 4096, tm_nodes_used := [], tm_ronly := true,
            tm_nonc := false, tm_nomtime := true, tm_pgread := false }⟩ })
      = some (true, []) :=
  (use_nc_iff_not_nonc _ _ _ rfl rfl).2.1.2 rfl

/-! ## Node budget -/

theorem reserve_node_slot_full (mem_avail : Bool) (tm : tmpfs_mount)
    (h : tm.tm_nodes_inuse = tm.tm_nodes_max) :
    reserve_node_slot mem_avail tm = (false, tm) := by
  unfold reserve_node_slot
  rw [if_neg]
  intro hc
  omega

theorem reserve_node_slot_room (tm : tmpfs_mount)
    (h : tm.tm_nodes_inuse < tm.tm_nodes_max) :
    reserve_node_slot true tm
      = (true, { tm with tm_nodes_inuse := tm.tm_nodes_inuse + 1 }) := by
  unfold reserve_node_slot
  rw [if_pos]
  exact ⟨h, rfl⟩

theorem reserve_node_slot_bound (mem_avail : Bool) (tm : tmpfs_mount)
    (h : tm.tm_nodes_inuse ≤ tm.tm_nodes_max) :
    (reserve_node_slot mem_avail tm).2.tm_nodes_inuse
        ≤ (reserve_node_slot mem_avail tm).2.tm_nodes_max ∧
      (reserve_node_slot mem_avail tm).2.tm_nodes_max = tm.tm_nodes_max := by
  unfold reserve_node_slot
  by_cases hc : tm.tm_nodes_inuse + 1 ≤ tm.tm_nodes_max ∧ mem_avail = true
  · rw [if_pos hc]
    exact ⟨hc.1, rfl⟩
  · rw [if_neg hc]
    exact ⟨h, rfl⟩

theorem alloc_node_bound (mem_avail : Bool) (now : timespec) (gen : Nat) (tm : tmpfs_mount)
    (type : vtype) (uid gid mode : Nat) (parent : Option Nat) (target : List Byte)
    (rdev : Nat) (h : tm.tm_nodes_inuse ≤ tm.tm_nodes_max) :
    (tmpfs_alloc_node mem_avail now gen tm type uid gid mode parent target rdev).2.tm_nodes_inuse
      ≤ (tmpfs_alloc_node mem_avail now gen tm type uid gid mode parent target
          rdev).2.tm_nodes_max := by
  have hb := reserve_node_slot_bound mem_avail tm h
  unfold tmpfs_alloc_node
  rcases hr : reserve_node_slot mem_avail tm with ⟨b, tm1⟩
  rw [hr] at hb
  cases b
  · exact hb.1
  · exact hb.1

theorem free_node_bound (tm : tmpfs_mount) (node : tmpfs_node)
    (h : tm.tm_nodes_inuse ≤ tm.tm_nodes_max) :
    (tmpfs_free_node tm node).1.tm_nodes_inuse ≤ (tmpfs_free_node tm node).1.tm_nodes_max := by
  unfold tmpfs_free_node
  by_cases hc : node.tn_refcount - 1 = 0 ∧ node.tn_id ∈ tm.tm_nodes_used
  · simp only [hc, and_self, if_true, release_node_slot]
    omega
  · simp only [hc, if_false]
    exact h

theorem mount_reachable_bound (tm : tmpfs_mount) (h : mount_reachable tm) :
    tm.tm_nodes_inuse ≤ tm.tm_nodes_max := by
  induction h with
  | fresh tm h0 _ => omega
  | alloc tm mem_avail now gen type uid gid mode parent target rdev _ ih =>
    exact alloc_node_bound mem_avail now gen tm type uid gid mode parent target rdev ih
  | free tm node _ ih => exact free_node_bound tm node ih

/-- C6: node budget enforcement.  With `tm_nodes_inuse = tm_nodes_max` (all
`K` nodes in use) `tmpfs_alloc_node` fails with resource exhaustion and leaves
the mount as it was, so the used count is still `K`; in every reachable mount
state `tm_nodes_inuse <= tm_nodes_max`; and below the maximum, with memory
available, the allocation succeeds and counts one more node. -/
theorem node_budget_enforced :
    (∀ (mem_avail : Bool) (now : timespec) (gen : Nat) (tm : tmpfs_mount) (type : vtype)
        (uid gid mode : Nat) (parent : Option Nat) (target : List Byte) (rdev : Nat),
      tm.tm_nodes_inuse = tm.tm_nodes_max →
      tmpfs_alloc_node mem_avail now gen tm type uid gid mode parent target rdev
        = (Except.error tmpfs_error.resource_exhaustion, tm)) ∧
    (∀ tm : tmpfs_mount, mount_reachable tm → tm.tm_nodes_inuse ≤ tm.tm_nodes_max) ∧
    (∀ (now : timespec) (gen : Nat) (tm : tmpfs_mount) (type : vtype)
        (uid gid mode : Nat) (parent : Option Nat) (target : List Byte) (rdev : Nat),
      tm.tm_nodes_inuse < tm.tm_nodes_max →
      ∃ node tm1,
        tmpfs_alloc_node true now gen tm type uid gid mode parent target rdev
          = (Except.ok node, tm1) ∧
        tm1.tm_nodes_inuse = tm.tm_nodes_inuse + 1 ∧
        tm1.tm_nodes_max = tm.tm_nodes_max) := by
  refine ⟨?_, mount_reachable_bound, ?_⟩
  · intro mem_avail now gen tm type uid gid mode parent target rdev h
    unfold tmpfs_alloc_node
    rw [reserve_node_slot_full mem_avail tm h]
  · intro now gen tm type uid gid mode parent target rdev h
    unfold tmpfs_alloc_node
    rw [reserve_node_slot_room tm h]
    exact ⟨_, _, rfl, rfl, rfl⟩

/-- C6 at a concrete input, the scenario of spec §8: with `max_nodes = 2`,
after two allocations the third fails and the used count stays 2. -/
theorem node_budget_enforced_witness :
    (tmpfs_alloc_node true ⟨0, 0⟩ 1
        (tmpfs_alloc_node true ⟨0, 0⟩ 1 (fresh_mount 2) vtype.VDIR 0 0 493 none [] 0).2
        vtype.VREG 0 0 420 (some 2) [] 0).2.tm_nodes_inuse = 2 ∧
    tmpfs_alloc_node true ⟨0, 0⟩ 1
        (tmpfs_alloc_node true ⟨0, 0⟩ 1
          (tmpfs_alloc_node true ⟨0, 0⟩ 1 (fresh_mount 2) vtype.VDIR 0 0 493 none [] 0).2
          vtype.VREG 0 0 420 (some 2) [] 0).2
        vtype.VREG 0 0 420 (some 2) [] 0
      = (Except.error tmpfs_error.resource_exhaustion,
          (tmpfs_alloc_node true ⟨0, 0⟩ 1
            (tmpfs_alloc_node true ⟨0, 0⟩ 1 (fresh_mount 2) vtype.VDIR 0 0 493 none [] 0).2
            vtype.VREG 0 0 420 (some 2) [] 0).2) :=
  ⟨by decide, node_budget_enforced.1 true ⟨0, 0⟩ 1 _ vtype.VREG 0 0 420 (some 2) [] 0
    (by decide)⟩

/-! ## Directory entry tree: lookup after attach and detach -/

theorem bcmp_oob (n : Nat) : ∀ (b1 b2 : List Byte), b1.length < n → bcmp b1 b2 n = none := by
  induction n with
  | zero => intro b1 b2 h; omega
  | succ n ih =>
    intro b1 b2 h
    cases b1 with
    | nil => cases b2 <;> simp [bcmp]
    | cons x xs =>
      cases b2 with
      | nil => simp [bcmp]
      | cons y ys =>
        have h1 : xs.length < n := by simpa using h
        simp [bcmp, ih xs ys h1]

theorem matches_iff_name (de : tmpfs_dirent) (N : List Byte) :
    TMPFS_DIRENT_MATCHES de N N.length = some true ↔ dirent_name de = some N := by
  unfold TMPFS_DIRENT_MATCHES dirent_name
  cases hud : de.ud with
  | td_duphead lh => simp
  | td_name buf =>
    simp only
    by_cases hl : de.td_namelen = N.length
    · rw [if_pos hl]
      by_cases hb : de.td_namelen ≤ buf.length
      · rw [if_pos hb, bcmp_eq de.td_namelen buf N hb (by omega), hl]
        by_cases he : List.take N.length buf = N
        · simp [he]
        · simp [he]
      · rw [if_neg hb, bcmp_oob de.td_namelen buf N (by omega)]
        simp
    · rw [if_neg hl]
      by_cases hb : de.td_namelen ≤ buf.length
      · rw [if_pos hb]
        simp only [Option.some.injEq, Bool.false_eq_true, false_iff, reduceCtorEq]
        intro he
        apply hl
        rw [← he, List.length_take]
        omega
      · rw [if_neg hb]
        simp

theorem strip_cookie_fst (e : Nat × tmpfs_dirent) : (strip_cookie e).1 = e.1 := rfl

theorem strip_cookie_hash (e : Nat × tmpfs_dirent) :
    (strip_cookie e).2.td_hash = e.2.td_hash := rfl

theorem strip_cookie_name (e : Nat × tmpfs_dirent) :
    dirent_name (strip_cookie e).2 = dirent_name e.2 := rfl

theorem strip_cookie_set (p : Nat) (d : tmpfs_dirent) (c : Nat) :
    strip_cookie (p, { d with td_cookie := c }) = strip_cookie (p, d) := rfl

theorem strip_eq_facts (e e0 : Nat × tmpfs_dirent) (h : strip_cookie e = strip_cookie e0) :
    e.1 = e0.1 ∧ e.2.td_hash = e0.2.td_hash ∧ dirent_name e.2 = dirent_name e0.2 := by
  refine ⟨?_, ?_, ?_⟩
  · rw [← strip_cookie_fst e, h, strip_cookie_fst]
  · rw [← strip_cookie_hash e, h, strip_cookie_hash]
  · rw [← strip_cookie_name e, h, strip_cookie_name]

theorem mem_slots_entries (e : Nat × tmpfs_dirent) (l : List dir_slot) :
    e ∈ slots_entries l ↔ ∃ s, s ∈ l ∧ e ∈ s.entries := by
  induction l with
  | nil => simp [slots_entries]
  | cons t l ih =>
    simp only [slots_entries, List.mem_append, ih, List.mem_cons]
    constructor
    · rintro (h | ⟨s, hs, he⟩)
      · exact ⟨t, Or.inl rfl, h⟩
      · exact ⟨s, Or.inr hs, he⟩
    · rintro ⟨s, hs | hs, he⟩
      · left; rw [← hs]; exact he
      · exact Or.inr ⟨s, hs, he⟩

theorem insert_slot_perm (s : dir_slot) (l : List dir_slot) :
    List.Perm (insert_slot s l) (s :: l) := by
  induction l with
  | nil => simp [insert_slot]
  | cons t l ih =>
    unfold insert_slot
    by_cases h : s.hash ≤ t.hash
    · rw [if_pos h]
    · rw [if_neg h]
      exact (List.Perm.cons t ih).trans (List.Perm.swap s t l)

theorem mem_insert_slot (t s : dir_slot) (l : List dir_slot) :
    t ∈ insert_slot s l ↔ t = s ∨ t ∈ l := by
  rw [(insert_slot_perm s l).mem_iff, List.mem_cons]

theorem xlookup_none (D : tmpfs_dir) (h : Nat) (hf : tmpfs_dir_xlookup_hash D h = none) :
    ∀ s ∈ D.tn_dirhead, s.hash ≠ h := by
  intro s hs
  have := List.find?_eq_none.1 hf s hs
  simpa using this

theorem xlookup_some (D : tmpfs_dir) (h : Nat) (s : dir_slot)
    (hf : tmpfs_dir_xlookup_hash D h = some s) : s ∈ D.tn_dirhead ∧ s.hash = h := by
  refine ⟨List.mem_of_find?_eq_some hf, ?_⟩
  have := List.find?_some hf
  simpa using this

theorem slot_unique (l : List dir_slot) (hn : (l.map dir_slot.hash).Nodup)
    (s t : dir_slot) (hs : s ∈ l) (ht : t ∈ l) (h : s.hash = t.hash) : s = t :=
  List.inj_on_of_nodup_map hn hs ht h

theorem xlookup_of_mem (D : tmpfs_dir) (hn : (D.tn_dirhead.map dir_slot.hash).Nodup)
    (s : dir_slot) (hs : s ∈ D.tn_dirhead) :
    tmpfs_dir_xlookup_hash D s.hash = some s := by
  cases hf : tmpfs_dir_xlookup_hash D s.hash with
  | none => exact absurd rfl (xlookup_none D s.hash hf s hs)
  | some t =>
    obtain ⟨ht, hh⟩ := xlookup_some D s.hash t hf
    rw [slot_unique D.tn_dirhead hn t s ht hs hh]

theorem slot_lookup_eq (N : List Byte) (s : dir_slot) :
    slot_lookup N s =
      (s.entries.find? (fun e => TMPFS_DIRENT_MATCHES e.2 N N.length == some true)).map
        Prod.fst := by
  cases s with
  | plain p de =>
    simp only [slot_lookup, dir_slot.entries, List.find?_cons, List.find?_nil]
    by_cases h : TMPFS_DIRENT_MATCHES de N N.length = some true
    · simp [h]
    · rw [if_neg h]
      have : (TMPFS_DIRENT_MATCHES de N N.length == some true) = false := by
        simpa using h
      rw [this]
      rfl
  | duphead h chain => rfl

theorem slot_lookup_none (N : List Byte) (s : dir_slot)
    (h : ∀ e ∈ s.entries, dirent_name e.2 ≠ some N) : slot_lookup N s = none := by
  rw [slot_lookup_eq, Option.map_eq_none', List.find?_eq_none]
  intro e he hm
  apply h e he
  rw [← matches_iff_name]
  simpa using hm

theorem slot_lookup_some (N : List Byte) (s : dir_slot) (p : Nat) (d : tmpfs_dirent)
    (hm : (p, d) ∈ s.entries) (hn : dirent_name d = some N)
    (hu : ∀ e ∈ s.entries, dirent_name e.2 = some N → e.1 = p) :
    slot_lookup N s = some p := by
  rw [slot_lookup_eq]
  cases hf : s.entries.find?
      (fun e => TMPFS_DIRENT_MATCHES e.2 N N.length == some true) with
  | none =>
    exfalso
    have := List.find?_eq_none.1 hf (p, d) hm
    apply this
    have hmt := (matches_iff_name d N).2 hn
    simp [hmt]
  | some e =>
    have he := List.mem_of_find?_eq_some hf
    have hme := List.find?_some hf
    have hne : dirent_name e.2 = some N := by
      rw [← matches_iff_name]
      simpa using hme
    simp [hu e he hne]

theorem lookup_none_of_no_name (hash : List Byte → Nat) (D : tmpfs_dir) (N : List Byte)
    (h : ∀ e ∈ D.entries, dirent_name e.2 ≠ some N) : tmpfs_dir_lookup hash D N = none := by
  unfold tmpfs_dir_lookup
  cases hf : tmpfs_dir_xlookup_hash D (hash N) with
  | none => rfl
  | some s =>
    obtain ⟨hs, _⟩ := xlookup_some D (hash N) s hf
    apply slot_lookup_none
    intro e he
    exact h e ((mem_slots_entries e D.tn_dirhead).2 ⟨s, hs, he⟩)

theorem lookup_some_of_unique (hash : List Byte → Nat) (D : tmpfs_dir) (N : List Byte)
    (p : Nat) (d : tmpfs_dirent) (hwf : dir_wf D) (hm : (p, d) ∈ D.entries)
    (hh : d.td_hash = hash N) (hn : dirent_name d = some N)
    (hu : ∀ e ∈ D.entries, dirent_name e.2 = some N → e.1 = p) :
    tmpfs_dir_lookup hash D N = some p := by
  obtain ⟨s, hs, hes⟩ := (mem_slots_entries (p, d) D.tn_dirhead).1 hm
  have hsh : s.hash = hash N := by
    rw [← hwf.2 s hs (p, d) hes]
    exact hh
  unfold tmpfs_dir_lookup
  rw [← hsh, xlookup_of_mem D hwf.1 s hs]
  apply slot_lookup_some N s p d hes hn
  intro e he
  exact hu e ((mem_slots_entries e D.tn_dirhead).2 ⟨s, hs, he⟩)

/-! ### Detach -/

theorem detach_slot_entries (p : Nat) (s : dir_slot) :
    slots_entries (detach_slot p s) = s.entries.filter (fun e => e.1 != p) := by
  cases s with
  | plain q de =>
    by_cases h : q = p
    · simp [detach_slot, dir_slot.entries, slots_entries, h]
    · simp [detach_slot, dir_slot.entries, slots_entries, h]
  | duphead hh chain =>
    simp only [detach_slot, dir_slot.entries]
    by_cases ha : chain.any (fun e => e.1 == p) = true
    · rw [if_pos ha]
      rcases hf : chain.filter (fun e => e.1 != p) with _ | ⟨e, _ | ⟨e2, rest⟩⟩
      · rw [hf]; simp [slots_entries]
      · rw [hf]; simp [slots_entries, dir_slot.entries]
      · rw [hf]; simp [slots_entries, dir_slot.entries]
    · rw [if_neg ha]
      simp only [slots_entries, dir_slot.entries, List.append_nil]
      symm
      rw [List.filter_eq_self]
      intro e he
      simp only [List.any_eq_true, not_exists, not_and] at ha
      have := ha e he
      simpa using this

theorem slots_entries_append (l1 l2 : List dir_slot) :
    slots_entries (l1 ++ l2) = slots_entries l1 ++ slots_entries l2 := by
  induction l1 with
  | nil => rfl
  | cons s l ih => simp [slots_entries, ih]

theorem detach_slots_entries (p : Nat) (l : List dir_slot) :
    slots_entries (detach_slots p l) = (slots_entries l).filter (fun e => e.1 != p) := by
  induction l with
  | nil => rfl
  | cons s l ih =>
    simp only [detach_slots, slots_entries, slots_entries_append, detach_slot_entries, ih,
      List.filter_append]

theorem detach_entries (D : tmpfs_dir) (p : Nat) :
    (tmpfs_dir_detach D p).entries = D.entries.filter (fun e => e.1 != p) :=
  detach_slots_entries p D.tn_dirhead

theorem detach_slot_spec (p : Nat) (s : dir_slot)
    (h2 : ∀ e ∈ s.entries, e.2.td_hash = s.hash) :
    detach_slot p s = [] ∨
      ∃ t, detach_slot p s = [t] ∧ t.hash = s.hash ∧ ∀ e ∈ t.entries, e ∈ s.entries := by
  cases s with
  | plain q de =>
    by_cases h : q = p
    · left; simp [detach_slot, h]
    · right
      exact ⟨dir_slot.plain q de, by simp [detach_slot, h], rfl, fun e he => he⟩
  | duphead hh chain =>
    simp only [detach_slot]
    by_cases ha : chain.any (fun e => e.1 == p) = true
    · rw [if_pos ha]
      have hsub : ∀ e ∈ chain.filter (fun e => e.1 != p), e ∈ chain :=
        fun e he => (List.mem_filter.1 he).1
      rcases hf : chain.filter (fun e => e.1 != p) with _ | ⟨e, _ | ⟨e2, rest⟩⟩
      · left; rw [hf]
      · right
        rw [hf] at hsub
        have hec : e ∈ chain := hsub e (by simp)
        refine ⟨dir_slot.plain e.1 e.2, by rw [hf], ?_, ?_⟩
        · exact h2 e hec
        · intro x hx
          simp only [dir_slot.entries, List.mem_singleton] at hx
          rw [hx]
          exact hec
      · right
        rw [hf] at hsub
        exact ⟨dir_slot.duphead hh (e :: e2 :: rest), by rw [hf], rfl, hsub⟩
    · rw [if_neg ha]
      right
      exact ⟨dir_slot.duphead hh chain, rfl, rfl, fun e he => he⟩

theorem detach_slots_wf (p : Nat) (l : List dir_slot)
    (h2 : ∀ s ∈ l, ∀ e ∈ s.entries, e.2.td_hash = s.hash) :
    List.Sublist ((detach_slots p l).map dir_slot.hash) (l.map dir_slot.hash) ∧
    ∀ t ∈ detach_slots p l, ∀ e ∈ t.entries, e.2.td_hash = t.hash := by
  induction l with
  | nil => simp [detach_slots]
  | cons s l ih =>
    have ih' := ih (fun t ht => h2 t (List.mem_cons_of_mem s ht))
    have hs := h2 s (List.mem_cons_self s l)
    simp only [detach_slots, List.map_append, List.map_cons, List.mem_append]
    rcases detach_slot_spec p s hs with h | ⟨t, ht, hth, hte⟩
    · rw [h]
      refine ⟨?_, ?_⟩
      · simpa using List.Sublist.cons _ ih'.1
      · intro t ht
        rcases ht with ht | ht
        · simp at ht
        · exact ih'.2 t ht
    · rw [ht]
      refine ⟨?_, ?_⟩
      · simp only [List.map_cons, List.map_nil, List.singleton_append, hth]
        exact List.Sublist.cons₂ _ ih'.1
      · intro u hu
        rcases hu with hu | hu
        · simp only [List.mem_singleton] at hu
          subst hu
          intro e he
          rw [hth]
          exact hs e (hte e he)
        · exact ih'.2 u hu

theorem detach_wf (D : tmpfs_dir) (p : Nat) (hwf : dir_wf D) : dir_wf (tmpfs_dir_detach D p) := by
  obtain ⟨hsub, h2⟩ := detach_slots_wf p D.tn_dirhead hwf.2
  exact ⟨hwf.1.sublist hsub, h2⟩

/-! ### Attach -/

theorem replace_slot_hash (h : Nat) (s : dir_slot) (l : List dir_slot) (hs : s.hash = h) :
    (replace_slot h s l).map dir_slot.hash = l.map dir_slot.hash := by
  induction l with
  | nil => rfl
  | cons t l ih =>
    have ih' : List.map dir_slot.hash (List.map (fun t => if t.hash = h then s else t) l)
        = List.map dir_slot.hash l := ih
    simp only [replace_slot, List.map_cons, ih', List.cons.injEq, and_true]
    by_cases ht : t.hash = h
    · rw [if_pos ht, hs, ht]
    · rw [if_neg ht]

theorem mem_replace_slot (t : dir_slot) (h : Nat) (s : dir_slot) (l : List dir_slot) :
    t ∈ replace_slot h s l ↔ (t = s ∧ ∃ u, u ∈ l ∧ u.hash = h) ∨ (t ∈ l ∧ t.hash ≠ h) := by
  simp only [replace_slot, List.mem_map]
  constructor
  · rintro ⟨u, hu, rfl⟩
    by_cases huh : u.hash = h
    · rw [if_pos huh]
      exact Or.inl ⟨rfl, u, hu, huh⟩
    · rw [if_neg huh]
      exact Or.inr ⟨hu, huh⟩
  · rintro (⟨rfl, u, hu, huh⟩ | ⟨ht, hth⟩)
    · exact ⟨u, hu, by rw [if_pos huh]⟩
    · exact ⟨t, ht, by rw [if_neg hth]⟩

theorem replace_entries (h : Nat) (s0 s1 : dir_slot) (l : List dir_slot)
    (hs0 : s0 ∈ l) (hh : s0.hash = h) (e : Nat × tmpfs_dirent) :
    e ∈ slots_entries (replace_slot h s1 l) ↔
      e ∈ s1.entries ∨ ∃ t, t ∈ l ∧ t.hash ≠ h ∧ e ∈ t.entries := by
  rw [mem_slots_entries]
  constructor
  · rintro ⟨t, ht, he⟩
    rcases (mem_replace_slot t h s1 l).1 ht with ⟨rfl, _⟩ | ⟨htl, hth⟩
    · exact Or.inl he
    · exact Or.inr ⟨t, htl, hth, he⟩
  · rintro (he | ⟨t, htl, hth, he⟩)
    · exact ⟨s1, (mem_replace_slot s1 h s1 l).2 (Or.inl ⟨rfl, s0, hs0, hh⟩), he⟩
    · exact ⟨t, (mem_replace_slot t h s1 l).2 (Or.inr ⟨htl, hth⟩), he⟩

theorem entries_split (h : Nat) (s0 : dir_slot) (l : List dir_slot)
    (hn : (l.map dir_slot.hash).Nodup) (hs0 : s0 ∈ l) (hh : s0.hash = h)
    (e : Nat × tmpfs_dirent) :
    e ∈ slots_entries l ↔ e ∈ s0.entries ∨ ∃ t, t ∈ l ∧ t.hash ≠ h ∧ e ∈ t.entries := by
  rw [mem_slots_entries]
  constructor
  · rintro ⟨t, ht, he⟩
    by_cases hth : t.hash = h
    · left
      rw [slot_unique l hn s0 t hs0 ht (by rw [hh, hth])]
      exact he
    · exact Or.inr ⟨t, ht, hth, he⟩
  · rintro (he | ⟨t, htl, _, he⟩)
    · exact ⟨s0, hs0, he⟩
    · exact ⟨t, htl, he⟩

/-- Replacing the content `s0` of the slot of hash `h` by `s1`, whose entries
are those of `s0` and one more (up to cookies), adds that one entry to the
directory (up to cookies). -/
theorem replace_entries_strip (h : Nat) (s0 s1 : dir_slot) (l : List dir_slot)
    (hn : (l.map dir_slot.hash).Nodup) (hs0 : s0 ∈ l) (hh : s0.hash = h)
    (X : Nat × tmpfs_dirent)
    (h1 : ∀ y, y ∈ s1.entries.map strip_cookie ↔ y = X ∨ y ∈ s0.entries.map strip_cookie)
    (x : Nat × tmpfs_dirent) :
    x ∈ (slots_entries (replace_slot h s1 l)).map strip_cookie ↔
      x = X ∨ x ∈ (slots_entries l).map strip_cookie := by
  simp only [List.mem_map] at h1 ⊢
  constructor
  · rintro ⟨e, he, rfl⟩
    rcases (replace_entries h s0 s1 l hs0 hh e).1 he with he1 | hrest
    · rcases (h1 (strip_cookie e)).1 ⟨e, he1, rfl⟩ with hx | ⟨e0, he0, hs⟩
      · exact Or.inl hx
      · exact Or.inr ⟨e0, (entries_split h s0 l hn hs0 hh e0).2 (Or.inl he0), hs⟩
    · exact Or.inr ⟨e, (entries_split h s0 l hn hs0 hh e).2 (Or.inr hrest), rfl⟩
  · rintro (hx | ⟨e0, he0, rfl⟩)
    · obtain ⟨e, he, hs⟩ := (h1 x).2 (Or.inl hx)
      exact ⟨e, (replace_entries h s0 s1 l hs0 hh e).2 (Or.inl he), hs⟩
    · rcases (entries_split h s0 l hn hs0 hh e0).1 he0 with he1 | hrest
      · obtain ⟨e, he, hs⟩ := (h1 (strip_cookie e0)).2 (Or.inr ⟨e0, he1, rfl⟩)
        exact ⟨e, (replace_entries h s0 s1 l hs0 hh e).2 (Or.inl he), hs⟩
      · exact ⟨e0, (replace_entries h s0 s1 l hs0 hh e0).2 (Or.inr hrest), rfl⟩

/-- Up to cookies, the entries after an attachment are the attached entry and
the entries before. -/
theorem attach_entries (D : tmpfs_dir) (p : Nat) (de : tmpfs_dirent) (hwf : dir_wf D)
    (x : Nat × tmpfs_dirent) :
    x ∈ (tmpfs_dir_attach D p de).entries.map strip_cookie ↔
      x = strip_cookie (p, de) ∨ x ∈ D.entries.map strip_cookie := by
  unfold tmpfs_dir_attach
  cases hf : tmpfs_dir_xlookup_hash D de.td_hash with
  | none =>
    simp only [tmpfs_dir.entries, List.mem_map, mem_slots_entries, mem_insert_slot]
    constructor
    · rintro ⟨e, ⟨s, hs | hs, he⟩, rfl⟩
      · subst hs
        simp only [dir_slot.entries, List.mem_singleton] at he
        left
        rw [he]
        rfl
      · exact Or.inr ⟨e, ⟨s, hs, he⟩, rfl⟩
    · rintro (hx | ⟨e, ⟨s, hs, he⟩, rfl⟩)
      · exact ⟨(p, { de with td_cookie := de.td_hash }), ⟨_, Or.inl rfl, by
          simp [dir_slot.entries]⟩, by rw [hx]; rfl⟩
      · exact ⟨e, ⟨s, Or.inr hs, he⟩, rfl⟩
  | some s0 =>
    obtain ⟨hs0, hh⟩ := xlookup_some D de.td_hash s0 hf
    cases s0 with
    | plain q old =>
      apply replace_entries_strip de.td_hash (dir_slot.plain q old) _ D.tn_dirhead hwf.1 hs0 hh
      intro y
      simp only [dir_slot.entries, List.map_cons, List.map_nil, List.mem_cons,
        List.mem_singleton, List.not_mem_nil, or_false, strip_cookie_set]
      constructor
      · rintro (h | h)
        · exact Or.inr h
        · exact Or.inl h
      · rintro (h | h)
        · exact Or.inr h
        · exact Or.inl h
    | duphead h' chain =>
      apply replace_entries_strip de.td_hash (dir_slot.duphead h' chain) _ D.tn_dirhead
        hwf.1 hs0 hh
      intro y
      simp only [dir_slot.entries, List.map_append, List.map_cons, List.map_nil,
        List.mem_append, List.mem_singleton, strip_cookie_set]
      constructor
      · rintro (h | h)
        · exact Or.inr h
        · exact Or.inl h
      · rintro (h | h)
        · exact Or.inr h
        · exact Or.inl h

theorem attach_wf (D : tmpfs_dir) (p : Nat) (de : tmpfs_dirent) (hwf : dir_wf D) :
    dir_wf (tmpfs_dir_attach D p de) := by
  unfold tmpfs_dir_attach
  cases hf : tmpfs_dir_xlookup_hash D de.td_hash with
  | none =>
    have hnone := xlookup_none D de.td_hash hf
    refine ⟨?_, ?_⟩
    · have hp := (insert_slot_perm (dir_slot.plain p { de with td_cookie := de.td_hash })
        D.tn_dirhead).map dir_slot.hash
      rw [hp.nodup_iff, List.map_cons, List.nodup_cons]
      refine ⟨?_, hwf.1⟩
      intro hmem
      obtain ⟨s, hs, hsh⟩ := List.mem_map.1 hmem
      exact hnone s hs hsh
    · intro t ht e he
      rcases (mem_insert_slot t _ D.tn_dirhead).1 ht with rfl | ht
      · simp only [dir_slot.entries, List.mem_singleton] at he
        rw [he]
        rfl
      · exact hwf.2 t ht e he
  | some s0 =>
    obtain ⟨hs0, hh⟩ := xlookup_some D de.td_hash s0 hf
    cases s0 with
    | plain q old =>
      refine ⟨?_, ?_⟩
      · show (List.map dir_slot.hash (replace_slot de.td_hash _ D.tn_dirhead)).Nodup
        rw [replace_slot_hash de.td_hash _ D.tn_dirhead (by rfl)]
        exact hwf.1
      · intro t ht e he
        rcases (mem_replace_slot t de.td_hash _ D.tn_dirhead).1 ht with ⟨rfl, _⟩ | ⟨htl, _⟩
        · simp only [dir_slot.entries, List.mem_cons, List.mem_singleton,
            List.not_mem_nil, or_false] at he
          rcases he with rfl | rfl
          · exact hh
          · rfl
        · exact hwf.2 t htl e he
    | duphead h' chain =>
      have hh' : h' = de.td_hash := hh
      refine ⟨?_, ?_⟩
      · show (List.map dir_slot.hash (replace_slot de.td_hash _ D.tn_dirhead)).Nodup
        rw [replace_slot_hash de.td_hash _ D.tn_dirhead (by exact hh)]
        exact hwf.1
      · intro t ht e he
        rcases (mem_replace_slot t de.td_hash _ D.tn_dirhead).1 ht with ⟨rfl, _⟩ | ⟨htl, _⟩
        · simp only [dir_slot.entries, List.mem_append, List.mem_singleton] at he
          rcases he with he | rfl
          · exact hwf.2 (dir_slot.duphead h' chain) hs0 e he
          · exact hh'.symm
        · exact hwf.2 t htl e he

theorem empty_wf : dir_wf tmpfs_dir_empty := by
  refine ⟨?_, ?_⟩
  · simp [tmpfs_dir_empty]
  · intro s hs
    simp [tmpfs_dir_empty] at hs

/-! ### The binding of a name -/

theorem binds_attach_new (N : List Byte) (p : Nat) (de : tmpfs_dirent) (D : tmpfs_dir)
    (hwf : dir_wf D) (hnew : ∀ e ∈ D.entries, dirent_name e.2 ≠ some N) :
    dir_binds N p de (tmpfs_dir_attach D p de) := by
  refine ⟨attach_wf D p de hwf, ?_, ?_⟩
  · obtain ⟨⟨q, d⟩, he, hs⟩ := List.mem_map.1
      ((attach_entries D p de hwf (strip_cookie (p, de))).2 (Or.inl rfl))
    have h1 : q = p := (strip_eq_facts (q, d) (p, de) hs).1
    subst h1
    exact ⟨d, he, hs⟩
  · intro e he hn
    rcases (attach_entries D p de hwf (strip_cookie e)).1
      (List.mem_map.2 ⟨e, he, rfl⟩) with hx | hx
    · exact (strip_eq_facts e (p, de) hx).1
    · obtain ⟨e0, he0, hs⟩ := List.mem_map.1 hx
      exfalso
      apply hnew e0 he0
      rw [(strip_eq_facts e0 e hs).2.2]
      exact hn

theorem binds_step (N : List Byte) (p : Nat) (de : tmpfs_dirent) (D : tmpfs_dir)
    (op : dir_op) (hb : dir_binds N p de D) (hk : op_keeps N p op) :
    dir_binds N p de (op.apply D) := by
  obtain ⟨hwf, ⟨d, hd, hds⟩, hu⟩ := hb
  cases op with
  | attach q dq =>
    have hk' : dirent_name dq ≠ some N := hk
    refine ⟨attach_wf D q dq hwf, ?_, ?_⟩
    · obtain ⟨⟨r, d1⟩, he, hs⟩ := List.mem_map.1
        ((attach_entries D q dq hwf (strip_cookie (p, d))).2
          (Or.inr (List.mem_map.2 ⟨(p, d), hd, rfl⟩)))
      have h1 : r = p := (strip_eq_facts (r, d1) (p, d) hs).1
      subst h1
      exact ⟨d1, he, hs.trans hds⟩
    · intro e he hn
      rcases (attach_entries D q dq hwf (strip_cookie e)).1
        (List.mem_map.2 ⟨e, he, rfl⟩) with hx | hx
      · exfalso
        apply hk'
        rw [← hn]
        exact ((strip_eq_facts e (q, dq) hx).2.2).symm
      · obtain ⟨e0, he0, hs⟩ := List.mem_map.1 hx
        rw [← (strip_eq_facts e0 e hs).1]
        apply hu e0 he0
        rw [(strip_eq_facts e0 e hs).2.2]
        exact hn
  | detach q =>
    have hk' : q ≠ p := hk
    refine ⟨detach_wf D q hwf, ⟨d, ?_, hds⟩, ?_⟩
    · show (p, d) ∈ (tmpfs_dir_detach D q).entries
      rw [detach_entries, List.mem_filter]
      refine ⟨hd, ?_⟩
      simpa using fun h => hk' h.symm
    · intro e he hn
      have he' : e ∈ (tmpfs_dir_detach D q).entries := he
      rw [detach_entries, List.mem_filter] at he'
      exact hu e he'.1 hn

theorem binds_run (N : List Byte) (p : Nat) (de : tmpfs_dirent) (ops : List dir_op) :
    ∀ D : tmpfs_dir, dir_binds N p de D → (∀ op ∈ ops, op_keeps N p op) →
      dir_binds N p de (dir_run D ops) := by
  induction ops with
  | nil => intro D hb _; exact hb
  | cons op ops ih =>
    intro D hb hk
    have h1 := binds_step N p de D op hb (hk op (List.mem_cons_self op ops))
    exact ih (op.apply D) h1 (fun o ho => hk o (List.mem_cons_of_mem op ho))

theorem binds_lookup (hash : List Byte → Nat) (N : List Byte) (p : Nat) (de : tmpfs_dirent)
    (D : tmpfs_dir) (hname : dirent_name de = some N) (hhash : de.td_hash = hash N)
    (hb : dir_binds N p de D) : tmpfs_dir_lookup hash D N = some p := by
  obtain ⟨hwf, ⟨d, hd, hds⟩, hu⟩ := hb
  have hf := strip_eq_facts (p, d) (p, de) hds
  apply lookup_some_of_unique hash D N p d hwf hd
  · rw [← hhash]; exact hf.2.1
  · rw [← hname]; exact hf.2.2
  · exact hu

theorem binds_detach_lookup (hash : List Byte → Nat) (N : List Byte) (p : Nat)
    (de : tmpfs_dirent) (D : tmpfs_dir) (hb : dir_binds N p de D) :
    tmpfs_dir_lookup hash (tmpfs_dir_detach D p) N = none := by
  apply lookup_none_of_no_name
  intro e he hn
  rw [detach_entries, List.mem_filter] at he
  have := hb.2.2 e he.1 hn
  simp [this] at he

theorem run_wf (ops : List dir_op) : ∀ D : tmpfs_dir, dir_wf D → dir_wf (dir_run D ops) := by
  induction ops with
  | nil => intro D h; exact h
  | cons op ops ih =>
    intro D h
    apply ih
    cases op with
    | attach q d => exact attach_wf D q d h
    | detach q => exact detach_wf D q h

theorem lookup_none_no_name (hash : List Byte → Nat) (D : tmpfs_dir) (N : List Byte)
    (hwf : dir_wf D) (hhashed : dir_hashed hash D)
    (hlook : tmpfs_dir_lookup hash D N = none) :
    ∀ e ∈ D.entries, dirent_name e.2 ≠ some N := by
  intro e he hn
  obtain ⟨M, hM, hMh⟩ := hhashed e he
  have hMN : M = N := by
    rw [hM] at hn
    exact Option.some.inj hn
  subst hMN
  obtain ⟨s, hs, hes⟩ := (mem_slots_entries e D.tn_dirhead).1 he
  have hsh : s.hash = hash M := by
    rw [← hwf.2 s hs e hes]
    exact hMh
  unfold tmpfs_dir_lookup at hlook
  rw [← hsh, xlookup_of_mem D hwf.1 s hs] at hlook
  simp only at hlook
  rw [slot_lookup_eq, Option.map_eq_none', List.find?_eq_none] at hlook
  apply hlook e hes
  have hmt := (matches_iff_name e.2 M).2 hM
  simp [hmt]

theorem hashed_attach (hash : List Byte → Nat) (D : tmpfs_dir) (q : Nat) (d : tmpfs_dirent)
    (M : List Byte) (hwf : dir_wf D) (hhashed : dir_hashed hash D)
    (hd : dirent_for hash M d) : dir_hashed hash (tmpfs_dir_attach D q d) := by
  intro e he
  rcases (attach_entries D q d hwf (strip_cookie e)).1
    (List.mem_map.2 ⟨e, he, rfl⟩) with hx | hx
  · have hf := strip_eq_facts e (q, d) hx
    exact ⟨M, by rw [hf.2.2]; exact hd.1, by rw [hf.2.1]; exact hd.2⟩
  · obtain ⟨e0, he0, hs⟩ := List.mem_map.1 hx
    obtain ⟨M0, h0⟩ := hhashed e0 he0
    have hf := strip_eq_facts e0 e hs
    exact ⟨M0, by rw [← hf.2.2]; exact h0.1, by rw [← hf.2.1]; exact h0.2⟩

theorem hashed_detach (hash : List Byte → Nat) (D : tmpfs_dir) (q : Nat)
    (hhashed : dir_hashed hash D) : dir_hashed hash (tmpfs_dir_detach D q) := by
  intro e he
  have he' : e ∈ (tmpfs_dir_detach D q).entries := he
  rw [detach_entries, List.mem_filter] at he'
  exact hhashed e he'.1

theorem hashed_step (hash : List Byte → Nat) (D : tmpfs_dir) (op : dir_op)
    (hwf : dir_wf D) (hhashed : dir_hashed hash D) (hp : op_by_protocol hash D op) :
    dir_hashed hash (op.apply D) := by
  cases op with
  | attach q d =>
    obtain ⟨M, hM, _⟩ := hp
    exact hashed_attach hash D q d M hwf hhashed hM
  | detach q => exact hashed_detach hash D q hhashed

theorem protocol_keeps (hash : List Byte → Nat) (N : List Byte) (p : Nat)
    (de : tmpfs_dirent) (D : tmpfs_dir) (op : dir_op) (hde : dirent_for hash N de)
    (hb : dir_binds N p de D) (hp : op_by_protocol hash D op)
    (hne : op ≠ dir_op.detach p) : op_keeps N p op := by
  cases op with
  | attach q d =>
    obtain ⟨M, hM, hlook⟩ := hp
    show dirent_name d ≠ some N
    intro hn
    have hMN : M = N := by
      rw [hM.1] at hn
      exact Option.some.inj hn
    subst hMN
    rw [binds_lookup hash M p de D hde.1 hde.2 hb] at hlook
    exact Option.noConfusion hlook
  | detach q =>
    show q ≠ p
    intro h
    apply hne
    rw [h]

theorem protocol_run (hash : List Byte → Nat) (N : List Byte) (p : Nat) (de : tmpfs_dirent)
    (hde : dirent_for hash N de) (ops : List dir_op) :
    ∀ D : tmpfs_dir, dir_binds N p de D → dir_hashed hash D →
      ops_by_protocol hash D ops → dir_op.detach p ∉ ops →
      dir_binds N p de (dir_run D ops) ∧ dir_hashed hash (dir_run D ops) := by
  induction ops with
  | nil => intro D hb hh _ _; exact ⟨hb, hh⟩
  | cons op ops ih =>
    intro D hb hh hp hk
    have hne : op ≠ dir_op.detach p := fun h => hk (by rw [h]; exact List.mem_cons_self _ _)
    have hk' : dir_op.detach p ∉ ops := fun h => hk (List.mem_cons_of_mem op h)
    have hkeep := protocol_keeps hash N p de D op hde hb hp.1 hne
    exact ih (op.apply D) (binds_step N p de D op hb hkeep)
      (hashed_step hash D op hb.1 hh hp.1) hp.2 hk'

theorem protocol_run_wf (hash : List Byte → Nat) (ops : List dir_op) :
    ∀ D : tmpfs_dir, dir_wf D → dir_hashed hash D → ops_by_protocol hash D ops →
      dir_wf (dir_run D ops) ∧ dir_hashed hash (dir_run D ops) := by
  induction ops with
  | nil => intro D hw hh _; exact ⟨hw, hh⟩
  | cons op ops ih =>
    intro D hw hh hp
    refine ih (op.apply D) ?_ (hashed_step hash D op hw hh hp.1) hp.2
    cases op with
    | attach q d => exact attach_wf D q d hw
    | detach q => exact detach_wf D q hw

theorem empty_hashed (hash : List Byte → Nat) : dir_hashed hash tmpfs_dir_empty := by
  intro e he
  simp [tmpfs_dir_empty, tmpfs_dir.entries, slots_entries] at he

/-- C5: for every directory `D` (well formed, each entry stored under the hash
of its name, as is every directory built from the empty one by the callers'
protocol) and every name `N`: after an entry for `N` is inserted at address
`p` by `tmpfs_dir_attach` (the insert succeeds: the lookup of `N` before it
returned none), `tmpfs_dir_lookup` of `N` returns that same entry `p`, and
goes on returning it, the entry unchanged up to its cookie, over every
sequence of further operations of the protocol until `p` is removed; after
`tmpfs_dir_detach` of `p` a lookup of `N` returns none. -/
theorem dir_lookup_attach_until_detach
    (hash : List Byte → Nat) (D : tmpfs_dir) (N : List Byte) (p : Nat)
    (de : tmpfs_dirent) (ops : List dir_op)
    (hwf : dir_wf D) (hhashed : dir_hashed hash D)
    (hlook : tmpfs_dir_lookup hash D N = none)
    (hde : dirent_for hash N de)
    (hops : ops_by_protocol hash (tmpfs_dir_attach D p de) ops)
    (hkeep : dir_op.detach p ∉ ops) :
    tmpfs_dir_lookup hash (tmpfs_dir_attach D p de) N = some p ∧
    tmpfs_dir_lookup hash (dir_run (tmpfs_dir_attach D p de) ops) N = some p ∧
    (∃ d, (p, d) ∈ (dir_run (tmpfs_dir_attach D p de) ops).entries ∧
      strip_cookie (p, d) = strip_cookie (p, de)) ∧
    tmpfs_dir_lookup hash
      (tmpfs_dir_detach (dir_run (tmpfs_dir_attach D p de) ops) p) N = none ∧
    tmpfs_dir_lookup hash (tmpfs_dir_detach (tmpfs_dir_attach D p de) p) N = none ∧
    (∀ ops0 : List dir_op, ops_by_protocol hash tmpfs_dir_empty ops0 →
      dir_wf (dir_run tmpfs_dir_empty ops0) ∧
      dir_hashed hash (dir_run tmpfs_dir_empty ops0)) := by
  have hnew := lookup_none_no_name hash D N hwf hhashed hlook
  have h0 := binds_attach_new N p de D hwf hnew
  have hh0 := hashed_attach hash D p de N hwf hhashed hde
  have h1 := (protocol_run hash N p de hde ops (tmpfs_dir_attach D p de) h0 hh0 hops hkeep).1
  exact ⟨binds_lookup hash N p de _ hde.1 hde.2 h0,
    binds_lookup hash N p de _ hde.1 hde.2 h1,
    h1.2.1,
    binds_detach_lookup hash N p de _ h1,
    binds_detach_lookup hash N p de _ h0,
    fun ops0 h => protocol_run_wf hash ops0 tmpfs_dir_empty empty_wf (empty_hashed hash) h⟩

/-- C5 at a concrete input: names hashed by their length, so that the names
`a`, `b` and `c` collide.  A directory holds `a` at address 1; `b`, not found
in it, is attached at 2; then `c` is attached at 3 and `a` detached; `b` is
found at 2 until it is detached. -/
theorem dir_lookup_attach_until_detach_witness :
    tmpfs_dir_lookup (fun n => 4 + n.length)
      (dir_run
        (tmpfs_dir_attach
          (tmpfs_dir_attach tmpfs_dir_empty 1
            { td_cookie := 5, td_hash := 5, td_namelen := 1, td_node := some 10,
              ud := tmpfs_dirent_ud.td_name [97] })
          2
          { td_cookie := 5, td_hash := 5, td_namelen := 1, td_node := some 11,
            ud := tmpfs_dirent_ud.td_name [98] })
        [dir_op.attach 3
          { td_cookie := 5, td_hash := 5, td_namelen := 1, td_node := some 12,
            ud := tmpfs_dirent_ud.td_name [99] },
         dir_op.detach 1])
      [98] = some 2 ∧
    tmpfs_dir_lookup (fun n => 4 + n.length)
      (tmpfs_dir_detach
        (dir_run
          (tmpfs_dir_attach
            (tmpfs_dir_attach tmpfs_dir_empty 1
              { td_cookie := 5, td_hash := 5, td_namelen := 1, td_node := some 10,
                ud := tmpfs_dirent_ud.td_name [97] })
            2
            { td_cookie := 5, td_hash := 5, td_namelen := 1, td_node := some 11,
              ud := tmpfs_dirent_ud.td_name [98] })
          [dir_op.attach 3
            { td_cookie := 5, td_hash := 5, td_namelen := 1, td_node := some 12,
              ud := tmpfs_dirent_ud.td_name [99] },
           dir_op.detach 1])
        2)
      [98] = none :=
  have h := dir_lookup_attach_until_detach (fun n => 4 + n.length)
    (tmpfs_dir_attach tmpfs_dir_empty 1
      { td_cookie := 5, td_hash := 5, td_namelen := 1, td_node := some 10,
        ud := tmpfs_dirent_ud.td_name [97] })
    [98] 2
    { td_cookie := 5, td_hash := 5, td_namelen := 1, td_node := some 11,
      ud := tmpfs_dirent_ud.td_name [98] }
    [dir_op.attach 3
      { td_cookie := 5, td_hash := 5, td_namelen := 1, td_node := some 12,
        ud := tmpfs_dirent_ud.td_name [99] },
     dir_op.detach 1]
    (attach_wf _ _ _ empty_wf)
    (hashed_attach _ _ _ _ [97] empty_wf (empty_hashed _) ⟨by decide, by decide⟩)
    (by decide)
    ⟨by decide, by decide⟩
    ⟨⟨[99], ⟨by decide, by decide⟩, by decide⟩, trivial, trivial⟩
    (by decide)
  ⟨h.2.1, h.2.2.2.1⟩

/-! ## VM object conversions -/

/-- C11: for a VM object whose flags do not contain `OBJ_TMPFS`, both
`VM_TO_TMPFS_VP` and `VM_TO_TMPFS_MP` return `NULL`, reading only `flags`, and
so whatever `swp_priv` holds (a `NULL` back-pointer included).  With
`OBJ_TMPFS` set and `swp_priv` a node `n`, `VM_TO_TMPFS_VP` returns
`n->tn_vnode`, and for a regular-file `n` `VM_TO_TMPFS_MP` returns
`n->tn_reg.tn_tmp`.  An object with the flag set and a node whose `tn_vnode`
is `NULL` gives a `NULL` result too, so `NULL` does not tell the flag is
clear. -/
theorem vm_to_tmpfs_guarded_by_flag (OBJ_PAGERPRIV1 : Nat) :
    (∀ o : vm_object, o.flags &&& OBJ_TMPFS OBJ_PAGERPRIV1 = 0 →
      VM_TO_TMPFS_VP OBJ_PAGERPRIV1 (some o) = some (none, [obj_read.flags]) ∧
      VM_TO_TMPFS_MP OBJ_PAGERPRIV1 (some o) = some (none, [obj_read.flags]) ∧
      ∀ sp : Option tmpfs_node,
        VM_TO_TMPFS_VP OBJ_PAGERPRIV1 (some { o with swp_priv := sp })
          = some (none, [obj_read.flags]) ∧
        VM_TO_TMPFS_MP OBJ_PAGERPRIV1 (some { o with swp_priv := sp })
          = some (none, [obj_read.flags])) ∧
    (∀ (o : vm_object) (n : tmpfs_node),
      o.flags &&& OBJ_TMPFS OBJ_PAGERPRIV1 ≠ 0 → o.swp_priv = some n →
      VM_TO_TMPFS_VP OBJ_PAGERPRIV1 (some o)
        = some (n.tn_vnode, [obj_read.flags, obj_read.swp_priv])) ∧
    (∀ (o : vm_object) (n : tmpfs_node) (aobj tmp : Option Nat) (pages : Nat),
      o.flags &&& OBJ_TMPFS OBJ_PAGERPRIV1 ≠ 0 → o.swp_priv = some n →
      n.tn_type = vtype.VREG → n.tn_spec = tmpfs_node_spec.tn_reg aobj tmp pages →
      VM_TO_TMPFS_MP OBJ_PAGERPRIV1 (some o)
        = some (tmp, [obj_read.flags, obj_read.swp_priv])) ∧
    (OBJ_PAGERPRIV1 ≠ 0 →
      ∃ o : vm_object, o.flags &&& OBJ_TMPFS OBJ_PAGERPRIV1 ≠ 0 ∧
        ∃ reads, VM_TO_TMPFS_VP OBJ_PAGERPRIV1 (some o) = some (none, reads)) := by
  refine ⟨?_, ?_, ?_, ?_⟩
  · intro o h
    refine ⟨?_, ?_, ?_⟩
    · simp only [VM_TO_TMPFS_VP]
      rw [if_pos h]
    · simp only [VM_TO_TMPFS_MP]
      rw [if_pos h]
    · intro sp
      have h' : ({ o with swp_priv := sp } : vm_object).flags &&& OBJ_TMPFS OBJ_PAGERPRIV1
          = 0 := h
      constructor
      · simp only [VM_TO_TMPFS_VP]
        rw [if_pos h']
      · simp only [VM_TO_TMPFS_MP]
        rw [if_pos h']
  · intro o n h hn
    simp only [VM_TO_TMPFS_VP]
    rw [if_neg h, hn]
  · intro o n aobj tmp pages h hn ht hs
    simp only [VM_TO_TMPFS_MP]
    rw [if_neg h, hn]
    simp only
    rw [if_pos ht, hs]
  · intro hne
    refine ⟨{ flags := OBJ_PAGERPRIV1,
              swp_priv := some
                { tn_id := 2, tn_type := vtype.VREG, tn_attached := true, tn_status := 0,
                  tn_accessed := 0, tn_size := 0, tn_uid := 0, tn_gid := 0, tn_mode := 420,
                  tn_links := 1, tn_flags := 0, tn_atime := ⟨0, 0⟩, tn_mtime := ⟨0, 0⟩,
                  tn_ctime := ⟨0, 0⟩, tn_birthtime := ⟨0, 0⟩, tn_gen := 1,
                  tn_vnode := none, tn_vpstate := 0, tn_refcount := 1,
                  tn_spec := tmpfs_node_spec.tn_reg none none 0 } }, ?_, ?_⟩
    · simp only [OBJ_TMPFS, Nat.and_self]
      exact hne
    · have hf : OBJ_PAGERPRIV1 &&& OBJ_TMPFS OBJ_PAGERPRIV1 ≠ 0 := by
        simp only [OBJ_TMPFS, Nat.and_self]
        exact hne
      refine ⟨[obj_read.flags, obj_read.swp_priv], ?_⟩
      simp only [VM_TO_TMPFS_VP]
      rw [if_neg hf]

/-- C11 at a concrete input, with `OBJ_PAGERPRIV1 = 0x2000`: an object with
the flag set over a regular-file node with vnode address 7 and mount address
9, and an object without the flag and with a `NULL` back-pointer. -/
theorem vm_to_tmpfs_guarded_by_flag_witness :
    VM_TO_TMPFS_MP 0x2000 (some
      { flags := 0x2004,
        swp_priv := some
          { tn_id := 2, tn_type := vtype.VREG, tn_attached := true, tn_status := 0,
            tn_accessed := 0, tn_size := 0, tn_uid := 0, tn_gid := 0, tn_mode := 420,
            tn_links := 1, tn_flags := 0, tn_atime := ⟨0, 0⟩, tn_mtime := ⟨0, 0⟩,
            tn_ctime := ⟨0, 0⟩, tn_birthtime := ⟨0, 0⟩, tn_gen := 1,
            tn_vnode := some 7, tn_vpstate := 0, tn_refcount := 1,
            tn_spec := tmpfs_node_spec.tn_reg (some 5) (some 9) 0 } })
      = some (some 9, [obj_read.flags, obj_read.swp_priv]) ∧
    VM_TO_TMPFS_VP 0x2000 (some { flags := 0x0004, swp_priv := none })
      = some (none, [obj_read.flags]) :=
  ⟨(vm_to_tmpfs_guarded_by_flag 0x2000).2.2.1 _ _ (some 5) (some 9) 0
      (by decide) rfl rfl rfl,
   ((vm_to_tmpfs_guarded_by_flag 0x2000).1 ⟨0x0004, none⟩ (by decide)).1⟩

end Tmpfs
